import Mathlib

/-!
Shallow embedding of the multi-provider account synchronization layer of the
Finance-Tracker application (server/storage.ts, server/auth/apiService.ts,
server/auth/schwab.ts, server/auth/plaid.ts, server/auth/etradeHardcoded.ts,
server/routes.ts, shared/schema.ts), together with proofs about the claims of
the specification.

Conventions of the embedding:
* decimal-string columns (`balance`, `shares`, `currentPrice`, `totalValue`,
  `changePercent`, monetary amounts) are represented by their rational value
  (`Rat`); the TypeScript code converts numbers to strings with `toString()`
  and back with `parseFloat`, which is the identity on this representation;
* timestamps (`Date`) are natural numbers (milliseconds since the epoch);
* nullable columns and optional payload fields are `Option`;
* each `await` of a fallible provider call is a field of an environment
  record holding that call's outcome (`Except String _`), so one environment
  value fixes one run of a sync; thrown exceptions are `Except.error`;
* the storage layer (`MemStorage` backed by insertion-ordered `Map`s;
  `DatabaseStorage` backed by serial-id SQL tables) is one `Store` record:
  a JavaScript `Map` keyed by id with `id = current++` insertion is a list
  with unique ids appended in id order, and `set` on an existing key is an
  in-place update.
-/

/-- Holding row of the `holdings` table (shared/schema.ts). -/
structure Holding where
  id : Nat
  accountId : Nat
  symbol : String
  name : String
  shares : Rat
  currentPrice : Rat
  totalValue : Rat
  category : String
  changePercent : Rat
deriving Repr, DecidableEq

/-- Account row of the `accounts` table (shared/schema.ts). -/
structure Account where
  id : Nat
  name : String
  provider : String
  accountType : String
  balance : Rat
  isConnected : Bool
  lastSync : Option Nat
  accessToken : Option String
  refreshToken : Option String
  tokenExpiry : Option Nat
  accountIdKey : Option String
  externalAccountId : Option String
deriving Repr, DecidableEq

/-- Activity row of the `activities` table (shared/schema.ts). -/
structure Activity where
  id : Nat
  accountId : Nat
  type : String
  description : String
  amount : Option Rat
  symbol : Option String
  timestamp : Nat
deriving Repr, DecidableEq

/-- `InsertHolding` (a holding without its serial id). -/
structure InsertHolding where
  accountId : Nat
  symbol : String
  name : String
  shares : Rat
  currentPrice : Rat
  totalValue : Rat
  category : String
  changePercent : Rat
deriving Repr, DecidableEq

/-- `InsertActivity` (an activity without id and timestamp). -/
structure InsertActivity where
  accountId : Nat
  type : String
  description : String
  amount : Option Rat
  symbol : Option String
deriving Repr, DecidableEq

/-- Give an `InsertHolding` its id, producing the stored row. -/
def InsertHolding.toHolding (ins : InsertHolding) (id : Nat) : Holding :=
  { id := id, accountId := ins.accountId, symbol := ins.symbol, name := ins.name,
    shares := ins.shares, currentPrice := ins.currentPrice, totalValue := ins.totalValue,
    category := ins.category, changePercent := ins.changePercent }

/-- Partial account update (`Partial<InsertAccount>`): a field that is `none`
is absent from the update and keeps its stored value. -/
structure AccountUpdate where
  balance : Option Rat := none
  isConnected : Option Bool := none
  accessToken : Option (Option String) := none
  refreshToken : Option (Option String) := none
  tokenExpiry : Option (Option Nat) := none
  accountIdKey : Option (Option String) := none
  externalAccountId : Option (Option String) := none
deriving Repr, DecidableEq

/-- The persistent store: the three tables touched by the sync core plus the
id counters (`currentHoldingId`, `currentActivityId` in MemStorage; serial
columns in DatabaseStorage). -/
structure Store where
  accounts : List Account
  holdings : List Holding
  activities : List Activity
  currentHoldingId : Nat
  currentActivityId : Nat
deriving Repr, DecidableEq

namespace Storage

/-- `getAccount(id)` (storage.ts). -/
def getAccount (s : Store) (id : Nat) : Option Account :=
  s.accounts.find? (fun a => a.id == id)

/-- Spread of a partial update over an account; both implementations force
`lastSync` to the current time on every update (storage.ts). -/
def applyAccountUpdate (a : Account) (u : AccountUpdate) (now : Nat) : Account :=
  { a with
    balance := u.balance.getD a.balance,
    isConnected := u.isConnected.getD a.isConnected,
    accessToken := u.accessToken.getD a.accessToken,
    refreshToken := u.refreshToken.getD a.refreshToken,
    tokenExpiry := u.tokenExpiry.getD a.tokenExpiry,
    accountIdKey := u.accountIdKey.getD a.accountIdKey,
    externalAccountId := u.externalAccountId.getD a.externalAccountId,
    lastSync := some now }

/-- `updateAccount(id, updates)` (storage.ts): update the row with that id,
no-op when absent. -/
def updateAccount (s : Store) (id : Nat) (u : AccountUpdate) (now : Nat) : Store :=
  { s with accounts := s.accounts.map (fun a => if a.id == id then applyAccountUpdate a u now else a) }

/-- `getHoldingsByAccount(accountId)` (storage.ts). -/
def getHoldingsByAccount (s : Store) (accountId : Nat) : List Holding :=
  s.holdings.filter (fun h => h.accountId == accountId)

/-- `createHolding(holding)` (storage.ts): insert with the next id. -/
def createHolding (s : Store) (ins : InsertHolding) : Store :=
  { s with
    holdings := s.holdings ++ [ins.toHolding s.currentHoldingId],
    currentHoldingId := s.currentHoldingId + 1 }

/-- `updateHolding(id, updates)` (storage.ts); every caller in the sync layer
passes a full `holdingData`, so the update carries all non-id fields. -/
def updateHolding (s : Store) (id : Nat) (ins : InsertHolding) : Store :=
  { s with holdings := s.holdings.map (fun h => if h.id == id then ins.toHolding h.id else h) }

/-- `deleteHolding(id)` (storage.ts). -/
def deleteHolding (s : Store) (id : Nat) : Store :=
  { s with holdings := s.holdings.filter (fun h => ¬ h.id == id) }

/-- `deleteActivity(id)` (storage.ts). -/
def deleteActivity (s : Store) (id : Nat) : Store :=
  { s with activities := s.activities.filter (fun a => ¬ a.id == id) }

/-- `deleteAccount(id)` (storage.ts, both implementations): removes the
account row only — `MemStorage` calls `this.accounts.delete(id)` and
`DatabaseStorage` issues a single `DELETE FROM accounts WHERE id = $1`;
neither touches `holdings` or `activities`. -/
def deleteAccount (s : Store) (id : Nat) : Store :=
  { s with accounts := s.accounts.filter (fun a => ¬ a.id == id) }

/-- `createActivity(activity)` (storage.ts): append with next id and the
creation timestamp. -/
def createActivity (s : Store) (ins : InsertActivity) (now : Nat) : Store :=
  { s with
    activities := s.activities ++
      [{ id := s.currentActivityId, accountId := ins.accountId, type := ins.type,
         description := ins.description, amount := ins.amount, symbol := ins.symbol,
         timestamp := now }],
    currentActivityId := s.currentActivityId + 1 }

end Storage

namespace MemStorage

/-- `MemStorage.getActivitiesByAccount` (storage.ts): filter, then
`sort((a, b) => b.timestamp - a.timestamp)` — newest first; JavaScript
`Array.prototype.sort` is stable, so a stable sort models it. -/
def getActivitiesByAccount (s : Store) (accountId : Nat) : List Activity :=
  List.insertionSort (fun a b => b.timestamp ≤ a.timestamp)
    (s.activities.filter (fun a => a.accountId == accountId))

end MemStorage

namespace DatabaseStorage

/-- `DatabaseStorage.getActivitiesByAccount` (storage.ts): SQL
`WHERE account_id = $1 ORDER BY timestamp` — ascending (no `desc()`);
modelled as a stable ascending sort of the stored rows. -/
def getActivitiesByAccount (s : Store) (accountId : Nat) : List Activity :=
  List.insertionSort (fun a b => a.timestamp ≤ b.timestamp)
    (s.activities.filter (fun a => a.accountId == accountId))

end DatabaseStorage

/-- JavaScript `a || b` on an optional string: `undefined`, `null` and the
empty string are falsy. -/
def jsOrS (a : Option String) (b : String) : String :=
  match a with
  | some s => if s = "" then b else s
  | none => b

namespace ApiService

/-- `ApiService.categorizeInstrument` (apiService.ts). -/
def categorizeInstrument (securityType : Option String) : String :=
  match securityType with
  | none => "stocks"
  | some t =>
    match t.toLower with
    | "eq" => "stocks"
    | "stock" => "stocks"
    | "etf" => "etfs"
    | "crypto" => "crypto"
    | "bond" => "bonds"
    | "mmf" => "cash"
    | _ => "stocks"

/-- `ApiService.categorizeSchwabInstrument` (apiService.ts). -/
def categorizeSchwabInstrument (assetType : Option String) : String :=
  match assetType with
  | none => "stocks"
  | some t =>
    match t.toLower with
    | "equity" => "stocks"
    | "etf" => "etfs"
    | "mutual_fund" => "etfs"
    | "fixed_income" => "bonds"
    | "cash_equivalent" => "cash"
    | _ => "stocks"

/-- The body of the per-position reconcile step shared by all three sync
loops (apiService.ts): re-read the account's holdings, match by symbol,
update the matched row in place, otherwise insert. -/
def upsertHolding (s : Store) (hd : InsertHolding) : Store :=
  match (Storage.getHoldingsByAccount s hd.accountId).find? (fun h => h.symbol == hd.symbol) with
  | some h => Storage.updateHolding s h.id hd
  | none => Storage.createHolding s hd

end ApiService

namespace ApiService

/-- One entry of `AccountListResponse.Accounts` used by the E*TRADE sync. -/
structure ETradeAccountData where
  accountIdKey : String
deriving Repr, DecidableEq

/-- `position.Product` of an E*TRADE portfolio position. -/
structure ETradeInstrument where
  symbol : String
  companyName : Option String
  securityType : Option String
deriving Repr, DecidableEq

/-- `position.Quick` / `position.Complete` payload of an E*TRADE position. -/
structure ETradePositionData where
  quantity : Option Rat
  lastTrade : Option Rat
  totalValue : Option Rat
  changePct : Option Rat
deriving Repr, DecidableEq

/-- One entry of `PortfolioResponse.AccountPortfolio[0].Position`. -/
structure ETradePosition where
  product : Option ETradeInstrument
  quick : Option ETradePositionData
  complete : Option ETradePositionData
deriving Repr, DecidableEq

/-- Outcomes of the three E*TRADE provider calls awaited by
`syncETradeAccount`, plus whether `etradeAuth` was configured. -/
structure ETradeEnv where
  configured : Bool
  accountsResult : Except String (List ETradeAccountData)
  balancesResult : Except String (Option Rat)
  portfolioResult : Except String (List ETradePosition)

/-- The `holdingData` object built for an E*TRADE position (apiService.ts,
`syncETradeAccount` loop): `?.toString() || '0'` on a missing numeric field
yields zero. -/
def etradeHoldingData (accountId : Nat) (instr : ETradeInstrument)
    (d : ETradePositionData) : InsertHolding :=
  { accountId := accountId,
    symbol := instr.symbol,
    name := jsOrS instr.companyName instr.symbol,
    shares := d.quantity.getD 0,
    currentPrice := d.lastTrade.getD 0,
    totalValue := d.totalValue.getD 0,
    category := categorizeInstrument instr.securityType,
    changePercent := d.changePct.getD 0 }

/-- One iteration of the E*TRADE position loop: skipped unless both
`position.Product` and `position.Quick || position.Complete` are present. -/
def etradeProcessPosition (accountId : Nat) (s : Store) (p : ETradePosition) : Store :=
  match p.product, p.quick <|> p.complete with
  | some instr, some d => upsertHolding s (etradeHoldingData accountId instr d)
  | _, _ => s

/-- The E*TRADE position loop. -/
def etradeProcessPositions (accountId : Nat) (s : Store) (ps : List ETradePosition) : Store :=
  ps.foldl (etradeProcessPosition accountId) s

/-- Body of the `try` block of `syncETradeAccount`; an error carries the
store as it stood when the exception was raised. -/
def syncETradeBody (env : ETradeEnv) (s : Store) (accountId now : Nat) :
    Except (String × Store) Store :=
  match env.accountsResult with
  | .error e => .error (e, s)
  | .ok accts =>
    match accts.head? with
    | none => .error ("No account data found", s)
    | some accountData =>
      match env.balancesResult with
      | .error e => .error (e, s)
      | .ok totalAccountValue =>
        match env.portfolioResult with
        | .error e => .error (e, s)
        | .ok positions =>
          let s1 := Storage.updateAccount s accountId
            { balance := some (totalAccountValue.getD 0),
              accountIdKey := some (some accountData.accountIdKey),
              isConnected := some true } now
          let s2 := etradeProcessPositions accountId s1 positions
          .ok (Storage.createActivity s2
            { accountId := accountId, type := "sync",
              description := "E*TRADE account successfully synchronized",
              amount := none, symbol := none } now)

/-- `ApiService.syncETradeAccount` (apiService.ts): validation throws before
the `try` block (no activity); inside it, any failure is caught, one `error`
activity is written, and the error is rethrown. -/
def syncETradeAccount (env : ETradeEnv) (s : Store) (accountId now : Nat) :
    Except String Unit × Store :=
  match Storage.getAccount s accountId with
  | none => (.error "Account not properly authenticated", s)
  | some account =>
    if account.accessToken.isNone ∨ account.refreshToken.isNone then
      (.error "Account not properly authenticated", s)
    else if ¬ env.configured then
      (.error "E*TRADE credentials not configured", s)
    else
      match syncETradeBody env s accountId now with
      | .ok s2 => (.ok (), s2)
      | .error (e, s2) =>
        (.error e, Storage.createActivity s2
          { accountId := accountId, type := "error",
            description := "E*TRADE sync failed: " ++ e,
            amount := none, symbol := none } now)

/-- `position.instrument` of a Schwab position. -/
structure SchwabInstrument where
  symbol : String
  description : Option String
  assetType : Option String
deriving Repr, DecidableEq

/-- One entry of `securitiesAccount.positions`. -/
structure SchwabPosition where
  instrument : Option SchwabInstrument
  longQuantity : Rat
  marketValue : Option Rat
deriving Repr, DecidableEq

/-- The `getAccount(accountNumber, token, 'positions')` payload. -/
structure SchwabDetails where
  liquidationValue : Option Rat
  positions : List SchwabPosition
deriving Repr, DecidableEq

/-- Token set returned by `SchwabAuth.getAccessToken`/`refreshAccessToken`
(schwab.ts). -/
structure SchwabTokens where
  accessToken : String
  refreshToken : String
  expiresIn : Nat
  tokenType : String
deriving Repr, DecidableEq

/-- One provider call made by `syncSchwabAccount`, recording the credentials
it was invoked with. -/
inductive SchwabCall where
  | refreshTok (refreshToken : String)
  | fetchAccounts (token : String)
  | fetchAccountNumbers (token : String)
  | fetchAccount (accountNumber : String) (token : String)
deriving Repr, DecidableEq

/-- The access token a `SchwabCall` presents, if it is a fetch. -/
def SchwabCall.fetchToken : SchwabCall → Option String
  | .refreshTok _ => none
  | .fetchAccounts t => some t
  | .fetchAccountNumbers t => some t
  | .fetchAccount _ t => some t

/-- Whether a `SchwabCall` is the token refresh. -/
def SchwabCall.isRefresh : SchwabCall → Bool
  | .refreshTok _ => true
  | _ => false

/-- Outcomes of the Schwab provider calls, as functions of the credentials
presented, plus whether `schwabAuth` was configured. -/
structure SchwabEnv where
  configured : Bool
  refresh : String → Except String SchwabTokens
  accountsFetch : String → Except String Unit
  accountNumbersFetch : String → Except String (List String)
  accountDetailsFetch : String → String → Except String SchwabDetails

/-- The `holdingData` object built for a Schwab position: the per-share
price is `marketValue / longQuantity` when `marketValue` is truthy. -/
def schwabHoldingData (accountId : Nat) (instr : SchwabInstrument)
    (p : SchwabPosition) : InsertHolding :=
  { accountId := accountId,
    symbol := instr.symbol,
    name := jsOrS instr.description instr.symbol,
    shares := p.longQuantity,
    currentPrice := if p.marketValue.getD 0 = 0 then 0 else p.marketValue.getD 0 / p.longQuantity,
    totalValue := p.marketValue.getD 0,
    category := categorizeSchwabInstrument instr.assetType,
    changePercent := 0 }

/-- One iteration of the Schwab position loop: skipped unless
`position.instrument` is present and `position.longQuantity > 0`. -/
def schwabProcessPosition (accountId : Nat) (s : Store) (p : SchwabPosition) : Store :=
  match p.instrument with
  | some instr =>
    if 0 < p.longQuantity then upsertHolding s (schwabHoldingData accountId instr p) else s
  | none => s

/-- The Schwab position loop. -/
def schwabProcessPositions (accountId : Nat) (s : Store) (ps : List SchwabPosition) : Store :=
  ps.foldl (schwabProcessPosition accountId) s

/-- The token-expiry gate at the top of `syncSchwabAccount`'s `try` block:
when `tokenExpiry` is set and past, refresh, persist the rotated tokens, and
continue with the fresh access token (`account.accessToken = newTokens.accessToken`). -/
def schwabTokenPhase (env : SchwabEnv) (s : Store) (account : Account)
    (accountId now : Nat) (storedToken : String) :
    Except (String × Store × List SchwabCall) (Store × String × List SchwabCall) :=
  match account.tokenExpiry with
  | some expiry =>
    if expiry ≤ now then
      match account.refreshToken with
      | some rt =>
        match env.refresh rt with
        | .ok newTokens =>
          .ok (Storage.updateAccount s accountId
                { accessToken := some (some newTokens.accessToken),
                  refreshToken := some (some newTokens.refreshToken),
                  tokenExpiry := some (some (now + newTokens.expiresIn * 1000)) } now,
               newTokens.accessToken, [SchwabCall.refreshTok rt])
        | .error e => .error (e, s, [SchwabCall.refreshTok rt])
      | none => .error ("Token expired and no refresh token available", s, [])
    else .ok (s, storedToken, [])
  | none => .ok (s, storedToken, [])

/-- The fetch-and-reconcile part of `syncSchwabAccount`'s `try` block. -/
def schwabFetchPhase (env : SchwabEnv) (s : Store) (accountId now : Nat)
    (token : String) (tr : List SchwabCall) :
    Except (String × Store × List SchwabCall) (Store × List SchwabCall) :=
  let tr1 := tr ++ [SchwabCall.fetchAccounts token]
  match env.accountsFetch token with
  | .error e => .error (e, s, tr1)
  | .ok _ =>
    let tr2 := tr1 ++ [SchwabCall.fetchAccountNumbers token]
    match env.accountNumbersFetch token with
    | .error e => .error (e, s, tr2)
    | .ok nums =>
      match nums.head? with
      | none => .error ("No account numbers found", s, tr2)
      | some accountNumber =>
        let tr3 := tr2 ++ [SchwabCall.fetchAccount accountNumber token]
        match env.accountDetailsFetch accountNumber token with
        | .error e => .error (e, s, tr3)
        | .ok details =>
          let s1 := Storage.updateAccount s accountId
            { balance := some (details.liquidationValue.getD 0),
              externalAccountId := some (some accountNumber),
              isConnected := some true } now
          let s2 := schwabProcessPositions accountId s1 details.positions
          .ok (Storage.createActivity s2
            { accountId := accountId, type := "sync",
              description := "Schwab account successfully synchronized",
              amount := none, symbol := none } now, tr3)

/-- `ApiService.syncSchwabAccount` (apiService.ts), instrumented with the
list of provider calls it performed and the credentials each one used. -/
def syncSchwabAccount (env : SchwabEnv) (s : Store) (accountId now : Nat) :
    Except String Unit × Store × List SchwabCall :=
  match Storage.getAccount s accountId with
  | none => (.error "Account not properly authenticated", s, [])
  | some account =>
    match account.accessToken with
    | none => (.error "Account not properly authenticated", s, [])
    | some storedToken =>
      if ¬ env.configured then (.error "Schwab credentials not configured", s, [])
      else
        match schwabTokenPhase env s account accountId now storedToken with
        | .error (e, s2, tr) =>
          (.error e, Storage.createActivity s2
            { accountId := accountId, type := "error",
              description := "Schwab sync failed: " ++ e,
              amount := none, symbol := none } now, tr)
        | .ok (s1, token, tr) =>
          match schwabFetchPhase env s1 accountId now token tr with
          | .error (e, s2, tr2) =>
            (.error e, Storage.createActivity s2
              { accountId := accountId, type := "error",
                description := "Schwab sync failed: " ++ e,
                amount := none, symbol := none } now, tr2)
          | .ok (s2, tr2) => (.ok (), s2, tr2)

/-- `accountData.portfolio` of a Robinhood account (`total_value || '0'`). -/
structure RHPortfolio where
  total_value : Option Rat
deriving Repr, DecidableEq

/-- One entry of `accounts.results` from Robinhood. -/
structure RHAccountData where
  portfolio : RHPortfolio
  account_number : String
deriving Repr, DecidableEq

/-- Payload of the per-position `fetch(position.instrument)` call. -/
structure RHInstrument where
  symbol : String
  name : Option String
deriving Repr, DecidableEq

/-- One entry of `positions.results` from Robinhood. -/
structure RHPosition where
  quantity : Rat
  instrument : String
  last_trade_price : Option Rat
deriving Repr, DecidableEq

/-- Outcomes of the Robinhood provider calls; `instrumentFetch` is the
per-position instrument-details request keyed by the position's instrument
URL. -/
structure RobinhoodEnv where
  configured : Bool
  loginResult : Except String Unit
  accountsResult : Except String (List RHAccountData)
  positionsResult : Except String (List RHPosition)
  instrumentFetch : String → Except String RHInstrument

/-- The `holdingData` object built for a Robinhood position. -/
def rhHoldingData (accountId : Nat) (instr : RHInstrument) (p : RHPosition) : InsertHolding :=
  { accountId := accountId,
    symbol := instr.symbol,
    name := jsOrS instr.name instr.symbol,
    shares := p.quantity,
    currentPrice := p.last_trade_price.getD 0,
    totalValue := p.quantity * p.last_trade_price.getD 0,
    category := "stocks",
    changePercent := 0 }

/-- The Robinhood position loop: each guarded iteration awaits the
instrument-details fetch, which can throw mid-loop, leaving the writes of
earlier iterations in place. -/
def rhProcessPositions (env : RobinhoodEnv) (accountId : Nat) (s : Store) :
    List RHPosition → Except (String × Store) Store
  | [] => .ok s
  | p :: rest =>
    if 0 < p.quantity then
      match env.instrumentFetch p.instrument with
      | .error e => .error (e, s)
      | .ok instr =>
        rhProcessPositions env accountId (upsertHolding s (rhHoldingData accountId instr p)) rest
    else rhProcessPositions env accountId s rest

/-- Body of the `try` block of `syncRobinhoodAccount`. -/
def syncRobinhoodBody (env : RobinhoodEnv) (s : Store) (accountId now : Nat) :
    Except (String × Store) Store :=
  match env.loginResult with
  | .error e => .error (e, s)
  | .ok _ =>
    match env.accountsResult with
    | .error e => .error (e, s)
    | .ok accountsList =>
      match env.positionsResult with
      | .error e => .error (e, s)
      | .ok positions =>
        match accountsList.head? with
        | none => .error ("No Robinhood accounts found", s)
        | some accountData =>
          let s1 := Storage.updateAccount s accountId
            { balance := some (accountData.portfolio.total_value.getD 0),
              externalAccountId := some (some accountData.account_number),
              isConnected := some true } now
          match rhProcessPositions env accountId s1 positions with
          | .error (e, s2) => .error (e, s2)
          | .ok s2 =>
            .ok (Storage.createActivity s2
              { accountId := accountId, type := "sync",
                description := "Robinhood account successfully synchronized",
                amount := none, symbol := none } now)

/-- `ApiService.syncRobinhoodAccount` (apiService.ts): the configuration
check throws before the `try` block (no activity); inside it, any failure is
caught, one `error` activity is written, and the error is rethrown. -/
def syncRobinhoodAccount (env : RobinhoodEnv) (s : Store) (accountId now : Nat) :
    Except String Unit × Store :=
  if ¬ env.configured then (.error "Robinhood credentials not configured", s)
  else
    match syncRobinhoodBody env s accountId now with
    | .ok s2 => (.ok (), s2)
    | .error (e, s2) =>
      (.error e, Storage.createActivity s2
        { accountId := accountId, type := "error",
          description := "Robinhood sync failed: " ++ e,
          amount := none, symbol := none } now)

end ApiService

namespace HardcodedETrade

/-- Account shape returned by `HardcodedETradeService` (etradeHardcoded.ts). -/
structure HAccount where
  accountId : String
  accountType : String
  accountDescription : String
  accountValue : Rat
deriving Repr, DecidableEq

/-- Raw entry of `AccountListResponse.Accounts` as the service reads it. -/
structure RawAccount where
  accountIdKey : String
  accountType : String
  accountDesc : String
  accountValue : Option Rat
deriving Repr, DecidableEq

/-- Raw `BalanceResponse` payload. -/
structure RawBalance where
  accountValue : Option Rat
  availableCash : Option Rat
deriving Repr, DecidableEq

/-- Balance pair returned by `getAccountBalance`. -/
structure BalancePair where
  balance : Rat
  availableCash : Rat
deriving Repr, DecidableEq

/-- `MOCK_ETRADE_DATA.accounts` (etradeHardcoded.ts). -/
def MOCK_ETRADE_ACCOUNTS : List HAccount :=
  [{ accountId := "ABC123456789", accountType := "INDIVIDUAL",
     accountDescription := "Individual Brokerage Account", accountValue := 125750.45 },
   { accountId := "XYZ987654321", accountType := "ROTH_IRA",
     accountDescription := "Roth IRA Account", accountValue := 89234.12 }]

/-- `MOCK_ETRADE_DATA.balances[accountIdKey]`, with the default pair used
when the key is absent from the mock table. -/
def mockBalanceFor (accountIdKey : String) : BalancePair :=
  if accountIdKey = "ABC123456789" then { balance := 125750.45, availableCash := 5420.30 }
  else if accountIdKey = "XYZ987654321" then { balance := 89234.12, availableCash := 1200.00 }
  else { balance := 50000, availableCash := 2500 }

/-- `HardcodedETradeService.getAccounts` (etradeHardcoded.ts): on a
successful transport, map the raw accounts; on ANY transport failure, the
`catch` block returns `MOCK_ETRADE_DATA.accounts` — the promise resolves
with fabricated data instead of rejecting. -/
def getAccounts (transport : Except String (List RawAccount)) : List HAccount :=
  match transport with
  | .ok raws => raws.map (fun a =>
      { accountId := a.accountIdKey, accountType := a.accountType,
        accountDescription := a.accountDesc, accountValue := a.accountValue.getD 0 })
  | .error _ => MOCK_ETRADE_ACCOUNTS

/-- `HardcodedETradeService.getAccountBalance` (etradeHardcoded.ts): the
`catch` block falls back to the mock balance table. -/
def getAccountBalance (accountIdKey : String) (transport : Except String RawBalance) :
    BalancePair :=
  match transport with
  | .ok raw => { balance := raw.accountValue.getD 0, availableCash := raw.availableCash.getD 0 }
  | .error _ => mockBalanceFor accountIdKey

end HardcodedETrade

namespace Plaid

/-- One entry of `response.data.securities` (plaid.ts). -/
structure Security where
  security_id : String
  ticker_symbol : Option String
  name : Option String
  close_price : Option Rat
  secType : Option String
deriving Repr, DecidableEq

/-- One entry of `response.data.holdings` (plaid.ts). -/
structure RawHolding where
  account_id : String
  security_id : String
  quantity : Rat
deriving Repr, DecidableEq

/-- Normalized holding returned by `PlaidService.getHoldings`. -/
structure PHolding where
  accountId : String
  symbol : Option String
  name : String
  quantity : Rat
  currentPrice : Rat
  totalValue : Rat
  category : String
deriving Repr, DecidableEq

/-- `PlaidService.categorizeSecurity` (plaid.ts): case-insensitive
substring-tolerant match, defaulting to `other`. -/
def categorizeSecurity (securityType : Option String) : String :=
  match securityType with
  | none => "other"
  | some raw =>
    let t := raw.toLower
    if t.containsSubstr "stock" ∨ t.containsSubstr "equity" then "stocks"
    else if t.containsSubstr "etf" then "etfs"
    else if t.containsSubstr "bond" then "bonds"
    else if t.containsSubstr "mutual" then "mutual_funds"
    else if t.containsSubstr "crypto" then "crypto"
    else if t.containsSubstr "cash" then "cash"
    else "other"

/-- `security.ticker_symbol || undefined`: the empty string is falsy. -/
def tickerOrNone (t : Option String) : Option String :=
  match t with
  | some s => if s = "" then none else some s
  | none => none

/-- The holding pushed for one raw Plaid holding whose security was found
and whose `quantity > 0`. -/
def pHoldingOf (h : RawHolding) (sec : Security) : PHolding :=
  { accountId := h.account_id,
    symbol := tickerOrNone sec.ticker_symbol,
    name := jsOrS sec.name "Unknown Security",
    quantity := h.quantity,
    currentPrice := sec.close_price.getD 0,
    totalValue := h.quantity * sec.close_price.getD 0,
    category := categorizeSecurity sec.secType }

/-- `PlaidService.getHoldings` (plaid.ts), success path: for each raw
holding, look up its security and keep it only when the security exists and
`holding.quantity > 0`. -/
def getHoldings (rawHoldings : List RawHolding) (securities : List Security) :
    List PHolding :=
  rawHoldings.foldl (fun acc h =>
    match securities.find? (fun sec => sec.security_id == h.security_id) with
    | some sec => if 0 < h.quantity then acc ++ [pHoldingOf h sec] else acc
    | none => acc) []

end Plaid

namespace Routes

/-- `DELETE /api/accounts/:id` (routes.ts): 404 when the account is absent;
otherwise delete each holding of the account, then each activity, then the
account row itself. -/
def deleteAccountRoute (s : Store) (id : Nat) : Store :=
  match Storage.getAccount s id with
  | none => s
  | some _ =>
    let s1 := (Storage.getHoldingsByAccount s id).foldl
      (fun acc h => Storage.deleteHolding acc h.id) s
    let s2 := (DatabaseStorage.getActivitiesByAccount s1 id).foldl
      (fun acc a => Storage.deleteActivity acc a.id) s1
    Storage.deleteAccount s2 id

end Routes

/-! ### Concrete fixtures used by the divergence theorems and witnesses -/

/-- An authenticated E*TRADE account row. -/
def demoETradeAccount : Account :=
  { id := 1, name := "E*TRADE", provider := "etrade", accountType := "individual",
    balance := 100, isConnected := true, lastSync := none,
    accessToken := some "tok", refreshToken := some "toksecret",
    tokenExpiry := none, accountIdKey := none, externalAccountId := none }

/-- A stored TSLA holding of account 1. -/
def demoTsla : Holding :=
  { id := 1, accountId := 1, symbol := "TSLA", name := "Tesla Inc.",
    shares := 89, currentPrice := 239.7, totalValue := 21334,
    category := "stocks", changePercent := -1.2 }

/-- Store with one connected account holding TSLA. -/
def demoStore1 : Store :=
  { accounts := [demoETradeAccount], holdings := [demoTsla], activities := [],
    currentHoldingId := 2, currentActivityId := 1 }

/-- Provider run in which E*TRADE reports exactly one position, AAPL. -/
def demoETradeEnv : ApiService.ETradeEnv :=
  { configured := true,
    accountsResult := .ok [{ accountIdKey := "key1" }],
    balancesResult := .ok (some 50000),
    portfolioResult := .ok
      [{ product := some { symbol := "AAPL", companyName := some "Apple Inc.",
                           securityType := some "EQ" },
         quick := some { quantity := some 10, lastTrade := some 185,
                         totalValue := some 1850, changePct := some 1.5 },
         complete := none }] }

/-- Robinhood account row (the Robinhood sync never loads it, but the store
update targets it). -/
def demoRHAccount : Account :=
  { id := 2, name := "Robinhood", provider := "robinhood", accountType := "individual",
    balance := 0, isConnected := true, lastSync := none,
    accessToken := none, refreshToken := none,
    tokenExpiry := none, accountIdKey := none, externalAccountId := none }

/-- Store for the Robinhood partial-write run: no holdings yet. -/
def demoStore2 : Store :=
  { accounts := [demoRHAccount], holdings := [], activities := [],
    currentHoldingId := 1, currentActivityId := 1 }

/-- Robinhood run with two positive positions whose second instrument fetch
fails with a transport error. -/
def demoRHEnv : ApiService.RobinhoodEnv :=
  { configured := true,
    loginResult := .ok (),
    accountsResult := .ok
      [{ portfolio := { total_value := some 1000 }, account_number := "RH1" }],
    positionsResult := .ok
      [{ quantity := 1, instrument := "u1", last_trade_price := some 10 },
       { quantity := 2, instrument := "u2", last_trade_price := some 20 }],
    instrumentFetch := fun url =>
      if url = "u1" then .ok { symbol := "AAPL", name := some "Apple Inc." }
      else .error "network unreachable" }

/-- Schwab account with an expired access token and a refresh token. -/
def demoSchwabAccount : Account :=
  { id := 3, name := "Schwab", provider := "schwab", accountType := "individual",
    balance := 100, isConnected := true, lastSync := none,
    accessToken := some "oldtok", refreshToken := some "refresh1",
    tokenExpiry := some 10, accountIdKey := none, externalAccountId := none }

/-- Store for the failed-refresh Schwab run. -/
def demoStore3 : Store :=
  { accounts := [demoSchwabAccount], holdings := [], activities := [],
    currentHoldingId := 1, currentActivityId := 1 }

/-- Schwab run whose token refresh is rejected by the provider. -/
def demoSchwabEnvBadRefresh : ApiService.SchwabEnv :=
  { configured := true,
    refresh := fun _ => .error "invalid_grant",
    accountsFetch := fun _ => .error "unused",
    accountNumbersFetch := fun _ => .error "unused",
    accountDetailsFetch := fun _ _ => .error "unused" }

/-- Store with two activities of account 1 at distinct timestamps. -/
def demoStore4 : Store :=
  { accounts := [demoETradeAccount], holdings := [],
    activities :=
      [{ id := 1, accountId := 1, type := "sync", description := "first",
         amount := none, symbol := none, timestamp := 10 },
       { id := 2, accountId := 1, type := "error", description := "second",
         amount := none, symbol := none, timestamp := 20 }],
    currentHoldingId := 1, currentActivityId := 3 }

/-- Store with an account that owns a holding and an activity. -/
def demoStore5 : Store :=
  { accounts := [{ demoETradeAccount with id := 4 }],
    holdings := [{ demoTsla with id := 7, accountId := 4 }],
    activities := [{ id := 9, accountId := 4, type := "sync", description := "s",
                     amount := none, symbol := none, timestamp := 10 }],
    currentHoldingId := 8, currentActivityId := 10 }

/-! ### C1 — reconciliation does not delete stale holdings -/

/-- C1: the specification requires that after a successful sync the stored
holdings equal exactly the provider's current position list, stale symbols
deleted. In the code the E*TRADE sync loop only updates or inserts and
contains no delete call: syncing an account that holds TSLA against a
provider run reporting only AAPL succeeds, yet TSLA survives next to the
inserted AAPL row. -/
theorem etrade_sync_retains_removed_position :
    (ApiService.syncETradeAccount demoETradeEnv demoStore1 1 5).1 = Except.ok () ∧
    (Storage.getHoldingsByAccount
      (ApiService.syncETradeAccount demoETradeEnv demoStore1 1 5).2 1).map (fun h => h.symbol)
      = ["TSLA", "AAPL"] := by
  constructor <;> rfl

/-! ### C2 — silent fallback to mock data on transport failure -/

/-- C2: the claim says an adapter must surface transport failures and never
silently substitute fabricated data. `HardcodedETradeService.getAccounts`
and `.getAccountBalance` resolve with the hardcoded mock dataset whenever
the provider request fails, indistinguishable from live data. -/
theorem hardcoded_etrade_returns_mock_on_transport_failure :
    HardcodedETrade.getAccounts (Except.error "connect ETIMEDOUT")
      = HardcodedETrade.MOCK_ETRADE_ACCOUNTS ∧
    HardcodedETrade.getAccountBalance "ABC123456789" (Except.error "connect ETIMEDOUT")
      = { balance := 125750.45, availableCash := 5420.30 } := by
  constructor <;> rfl

/-! ### C4 — partial writes on mid-list failure -/

/-- C4: the claim requires all-or-nothing reconciliation. The Robinhood
sync awaits a per-position instrument fetch inside the write loop with no
transaction: when the second fetch fails, the run errors out but the
holding written for the first position remains — the holdings table is not
unchanged from before the attempt. -/
theorem robinhood_midloop_failure_leaves_partial_write :
    (ApiService.syncRobinhoodAccount demoRHEnv demoStore2 2 5).1
      = Except.error "network unreachable" ∧
    Storage.getHoldingsByAccount demoStore2 2 = [] ∧
    (Storage.getHoldingsByAccount
      (ApiService.syncRobinhoodAccount demoRHEnv demoStore2 2 5).2 2).map (fun h => h.symbol)
      = ["AAPL"] := by
  refine ⟨rfl, rfl, rfl⟩

/-! ### C5 — auth failure does not disconnect the account -/

/-- C5: the claim says an authentication failure (here: the token refresh
is rejected) must mark the account `isConnected = false` and write an
`error` activity. The Schwab catch block writes the activity but never
touches `isConnected`: after the failed run the account is still marked
connected. -/
theorem schwab_refresh_failure_keeps_account_connected :
    (ApiService.syncSchwabAccount demoSchwabEnvBadRefresh demoStore3 3 100).1
      = Except.error "invalid_grant" ∧
    ((ApiService.syncSchwabAccount demoSchwabEnvBadRefresh demoStore3 3 100).2.1.activities.map
      (fun a => a.type)) = ["error"] ∧
    (Storage.getAccount
      (ApiService.syncSchwabAccount demoSchwabEnvBadRefresh demoStore3 3 100).2.1 3).map
      (fun a => a.isConnected) = some true := by
  refine ⟨rfl, rfl, rfl⟩

/-! ### Component lemmas for the store operations -/

@[simp] theorem Storage.holdings_updateAccount (s : Store) (id : Nat) (u : AccountUpdate) (now : Nat) :
    (Storage.updateAccount s id u now).holdings = s.holdings := rfl

@[simp] theorem Storage.activities_updateAccount (s : Store) (id : Nat) (u : AccountUpdate) (now : Nat) :
    (Storage.updateAccount s id u now).activities = s.activities := rfl

@[simp] theorem Storage.chid_updateAccount (s : Store) (id : Nat) (u : AccountUpdate) (now : Nat) :
    (Storage.updateAccount s id u now).currentHoldingId = s.currentHoldingId := rfl

@[simp] theorem Storage.caid_updateAccount (s : Store) (id : Nat) (u : AccountUpdate) (now : Nat) :
    (Storage.updateAccount s id u now).currentActivityId = s.currentActivityId := rfl

@[simp] theorem Storage.accounts_createActivity (s : Store) (ins : InsertActivity) (now : Nat) :
    (Storage.createActivity s ins now).accounts = s.accounts := rfl

@[simp] theorem Storage.holdings_createActivity (s : Store) (ins : InsertActivity) (now : Nat) :
    (Storage.createActivity s ins now).holdings = s.holdings := rfl

@[simp] theorem Storage.chid_createActivity (s : Store) (ins : InsertActivity) (now : Nat) :
    (Storage.createActivity s ins now).currentHoldingId = s.currentHoldingId := rfl

@[simp] theorem Storage.length_activities_createActivity (s : Store) (ins : InsertActivity) (now : Nat) :
    (Storage.createActivity s ins now).activities.length = s.activities.length + 1 := by
  simp [Storage.createActivity]

@[simp] theorem Storage.accounts_createHolding (s : Store) (ins : InsertHolding) :
    (Storage.createHolding s ins).accounts = s.accounts := rfl

@[simp] theorem Storage.activities_createHolding (s : Store) (ins : InsertHolding) :
    (Storage.createHolding s ins).activities = s.activities := rfl

@[simp] theorem Storage.caid_createHolding (s : Store) (ins : InsertHolding) :
    (Storage.createHolding s ins).currentActivityId = s.currentActivityId := rfl

@[simp] theorem Storage.accounts_updateHolding (s : Store) (id : Nat) (ins : InsertHolding) :
    (Storage.updateHolding s id ins).accounts = s.accounts := rfl

@[simp] theorem Storage.activities_updateHolding (s : Store) (id : Nat) (ins : InsertHolding) :
    (Storage.updateHolding s id ins).activities = s.activities := rfl

@[simp] theorem Storage.caid_updateHolding (s : Store) (id : Nat) (ins : InsertHolding) :
    (Storage.updateHolding s id ins).currentActivityId = s.currentActivityId := rfl

@[simp] theorem Storage.chid_updateHolding (s : Store) (id : Nat) (ins : InsertHolding) :
    (Storage.updateHolding s id ins).currentHoldingId = s.currentHoldingId := rfl

@[simp] theorem Storage.accounts_deleteHolding (s : Store) (id : Nat) :
    (Storage.deleteHolding s id).accounts = s.accounts := rfl

@[simp] theorem Storage.activities_deleteHolding (s : Store) (id : Nat) :
    (Storage.deleteHolding s id).activities = s.activities := rfl

@[simp] theorem Storage.accounts_deleteActivity (s : Store) (id : Nat) :
    (Storage.deleteActivity s id).accounts = s.accounts := rfl

@[simp] theorem Storage.holdings_deleteActivity (s : Store) (id : Nat) :
    (Storage.deleteActivity s id).holdings = s.holdings := rfl

@[simp] theorem ApiService.accounts_upsertHolding (s : Store) (hd : InsertHolding) :
    (ApiService.upsertHolding s hd).accounts = s.accounts := by
  unfold ApiService.upsertHolding
  cases (Storage.getHoldingsByAccount s hd.accountId).find? (fun h => h.symbol == hd.symbol) <;> simp

@[simp] theorem ApiService.activities_upsertHolding (s : Store) (hd : InsertHolding) :
    (ApiService.upsertHolding s hd).activities = s.activities := by
  unfold ApiService.upsertHolding
  cases (Storage.getHoldingsByAccount s hd.accountId).find? (fun h => h.symbol == hd.symbol) <;> simp

@[simp] theorem ApiService.caid_upsertHolding (s : Store) (hd : InsertHolding) :
    (ApiService.upsertHolding s hd).currentActivityId = s.currentActivityId := by
  unfold ApiService.upsertHolding
  cases (Storage.getHoldingsByAccount s hd.accountId).find? (fun h => h.symbol == hd.symbol) <;> simp

/-! ### C10 — MemStorage vs DatabaseStorage activity order -/

/-- C10 counterexample: on two activities of the same account with
timestamps 10 and 20, `MemStorage.getActivitiesByAccount` returns them
newest-first (`[20, 10]`) while `DatabaseStorage.getActivitiesByAccount`
returns them oldest-first (`[10, 20]`): the two implementations do not
return the same timestamp order. -/
theorem mem_db_activities_order_differ :
    (MemStorage.getActivitiesByAccount demoStore4 1).map (fun a => a.timestamp) = [20, 10] ∧
    (DatabaseStorage.getActivitiesByAccount demoStore4 1).map (fun a => a.timestamp) = [10, 20] ∧
    MemStorage.getActivitiesByAccount demoStore4 1
      ≠ DatabaseStorage.getActivitiesByAccount demoStore4 1 := by
  refine ⟨by decide, by decide, by decide⟩

/-- C10 as amended: the two implementations return the same set of
activities of the account, but in opposite timestamp order — MemStorage
sorts by timestamp descending, DatabaseStorage ascending, so the timestamp
sequence of one is the reverse of the other. -/
theorem mem_db_activities_reverse_timestamp_order (s : Store) (accountId : Nat) :
    (MemStorage.getActivitiesByAccount s accountId).Perm
      (DatabaseStorage.getActivitiesByAccount s accountId) ∧
    (MemStorage.getActivitiesByAccount s accountId).map (fun a => a.timestamp)
      = ((DatabaseStorage.getActivitiesByAccount s accountId).map (fun a => a.timestamp)).reverse := by
  set l := s.activities.filter (fun a => a.accountId == accountId) with hl
  have hperm1 : (MemStorage.getActivitiesByAccount s accountId).Perm l :=
    List.perm_insertionSort _ l
  have hperm2 : (DatabaseStorage.getActivitiesByAccount s accountId).Perm l :=
    List.perm_insertionSort _ l
  have hperm : (MemStorage.getActivitiesByAccount s accountId).Perm
      (DatabaseStorage.getActivitiesByAccount s accountId) :=
    hperm1.trans hperm2.symm
  refine ⟨hperm, ?_⟩
  have hs1 : List.Sorted (fun a b : Activity => b.timestamp ≤ a.timestamp)
      (MemStorage.getActivitiesByAccount s accountId) :=
    @List.sorted_insertionSort Activity (fun a b => b.timestamp ≤ a.timestamp) _
      ⟨fun a b => Nat.le_total b.timestamp a.timestamp⟩
      ⟨fun _ _ _ hab hbc => Nat.le_trans hbc hab⟩ l
  have hs2 : List.Sorted (fun a b : Activity => a.timestamp ≤ b.timestamp)
      (DatabaseStorage.getActivitiesByAccount s accountId) :=
    @List.sorted_insertionSort Activity (fun a b => a.timestamp ≤ b.timestamp) _
      ⟨fun a b => Nat.le_total a.timestamp b.timestamp⟩
      ⟨fun _ _ _ hab hbc => Nat.le_trans hab hbc⟩ l
  have hm1 : List.Sorted (fun x y : Nat => y ≤ x)
      ((MemStorage.getActivitiesByAccount s accountId).map (fun a => a.timestamp)) :=
    List.Pairwise.map _ (fun _ _ h => h) hs1
  have hm2 : List.Sorted (fun x y : Nat => y ≤ x)
      (((DatabaseStorage.getActivitiesByAccount s accountId).map (fun a => a.timestamp)).reverse) := by
    rw [List.Sorted, List.pairwise_reverse]
    exact List.Pairwise.map _ (fun _ _ h => h) hs2
  have hpm : ((MemStorage.getActivitiesByAccount s accountId).map (fun a => a.timestamp)).Perm
      (((DatabaseStorage.getActivitiesByAccount s accountId).map (fun a => a.timestamp)).reverse) :=
    (hperm.map _).trans (List.reverse_perm _).symm
  exact @List.eq_of_perm_of_sorted Nat (fun x y => y ≤ x)
    ⟨fun a b h1 h2 => Nat.le_antisymm h2 h1⟩ _ _ hpm hm1 hm2

/-! ### C8 — delete-account cascade -/

/-- Searching among the survivors of a delete-by-`p` filter never finds a
`p`-row. -/
theorem find?_filter_not {α} (p : α → Bool) (l : List α) :
    (l.filter (fun a => ¬ p a)).find? p = none := by
  induction l with
  | nil => rfl
  | cons x t ih =>
    by_cases h : p x
    · simp [List.filter_cons, h, ih]
    · simp [List.filter_cons, h, List.find?_cons, ih]

/-- Effect of the route's holding-deletion loop on the holdings table. -/
theorem holdings_foldl_deleteHolding (L : List Holding) (t : Store) :
    (L.foldl (fun acc h => Storage.deleteHolding acc h.id) t).holdings
      = t.holdings.filter (fun h => L.all (fun g => ¬ h.id == g.id)) := by
  induction L generalizing t with
  | nil => simp
  | cons g L ih =>
    rw [List.foldl_cons, ih, Storage.deleteHolding]
    simp only [List.filter_filter]
    congr 1
    funext h
    simp [Bool.and_comm]

/-- The holding-deletion loop leaves accounts untouched. -/
theorem accounts_foldl_deleteHolding (L : List Holding) (t : Store) :
    (L.foldl (fun acc h => Storage.deleteHolding acc h.id) t).accounts = t.accounts := by
  induction L generalizing t with
  | nil => rfl
  | cons g L ih => rw [List.foldl_cons, ih]; rfl

/-- The holding-deletion loop leaves activities untouched. -/
theorem activities_foldl_deleteHolding (L : List Holding) (t : Store) :
    (L.foldl (fun acc h => Storage.deleteHolding acc h.id) t).activities = t.activities := by
  induction L generalizing t with
  | nil => rfl
  | cons g L ih => rw [List.foldl_cons, ih]; rfl

/-- Effect of the route's activity-deletion loop on the activities table. -/
theorem activities_foldl_deleteActivity (L : List Activity) (t : Store) :
    (L.foldl (fun acc a => Storage.deleteActivity acc a.id) t).activities
      = t.activities.filter (fun x => L.all (fun g => ¬ x.id == g.id)) := by
  induction L generalizing t with
  | nil => simp
  | cons g L ih =>
    rw [List.foldl_cons, ih, Storage.deleteActivity]
    simp only [List.filter_filter]
    congr 1
    funext x
    simp [Bool.and_comm]

/-- The activity-deletion loop leaves accounts untouched. -/
theorem accounts_foldl_deleteActivity (L : List Activity) (t : Store) :
    (L.foldl (fun acc a => Storage.deleteActivity acc a.id) t).accounts = t.accounts := by
  induction L generalizing t with
  | nil => rfl
  | cons g L ih => rw [List.foldl_cons, ih]; rfl

/-- The activity-deletion loop leaves holdings untouched. -/
theorem holdings_foldl_deleteActivity (L : List Activity) (t : Store) :
    (L.foldl (fun acc a => Storage.deleteActivity acc a.id) t).holdings = t.holdings := by
  induction L generalizing t with
  | nil => rfl
  | cons g L ih => rw [List.foldl_cons, ih]; rfl

/-- C8 counterexample: calling `deleteAccount(id)` directly on the
repository contract removes only the account row; the dependent holding
(id 7) and activity (id 9) referencing the account survive, so the delete
operation does not cascade at the repository level. -/
theorem deleteAccount_direct_leaves_dependents :
    Storage.getAccount (Storage.deleteAccount demoStore5 4) 4 = none ∧
    (Storage.getHoldingsByAccount (Storage.deleteAccount demoStore5 4) 4).map (fun h => h.id)
      = [7] ∧
    ((Storage.deleteAccount demoStore5 4).activities.filter
      (fun x => x.accountId == 4)).map (fun x => x.id) = [9] := by
  refine ⟨by decide, by decide, by decide⟩

/-- C8 as amended: the cascade holds only through the HTTP delete route,
which explicitly deletes each holding of the account and then each of its
activities before deleting the account row: after the route completes, no
holding row and no activity row referencing the account remains, and the
account itself is gone. The repository-level `deleteAccount(id)` alone does
not cascade (see the counterexample). -/
theorem route_delete_cascades (s : Store) (id : Nat) (a : Account)
    (h : Storage.getAccount s id = some a) :
    Storage.getHoldingsByAccount (Routes.deleteAccountRoute s id) id = [] ∧
    (Routes.deleteAccountRoute s id).activities.filter (fun x => x.accountId == id) = [] ∧
    Storage.getAccount (Routes.deleteAccountRoute s id) id = none := by
  unfold Routes.deleteAccountRoute
  rw [h]
  simp only [Storage.deleteAccount, Storage.getHoldingsByAccount, Storage.getAccount]
  refine ⟨?_, ?_, ?_⟩
  · -- no holding of the account survives the holding-deletion loop
    rw [holdings_foldl_deleteActivity, holdings_foldl_deleteHolding, List.filter_filter]
    rw [List.filter_eq_nil_iff]
    intro x hx
    simp only [Bool.and_eq_true, beq_iff_eq, decide_eq_true_eq, Bool.not_eq_true] at *
    rintro ⟨hacc, hall⟩
    have hmem : x ∈ Storage.getHoldingsByAccount s id := by
      simp [Storage.getHoldingsByAccount, List.mem_filter, hx, hacc]
    have := List.all_eq_true.mp hall x hmem
    simp at this
  · -- no activity of the account survives the activity-deletion loop
    rw [activities_foldl_deleteActivity, List.filter_filter, List.filter_eq_nil_iff]
    intro x hx
    rintro hcontra
    simp only [Bool.and_eq_true, beq_iff_eq, decide_eq_true_eq] at hcontra
    obtain ⟨hacc, hall⟩ := hcontra
    have hmem : x ∈ DatabaseStorage.getActivitiesByAccount
        ((Storage.getHoldingsByAccount s id).foldl
          (fun acc h => Storage.deleteHolding acc h.id) s) id := by
      rw [DatabaseStorage.getActivitiesByAccount]
      rw [(List.perm_insertionSort _ _).mem_iff]
      simp [Storage.getHoldingsByAccount, List.mem_filter, hx, hacc]
    have := List.all_eq_true.mp hall x hmem
    simp at this
  · -- the account row itself is gone
    rw [accounts_foldl_deleteActivity, accounts_foldl_deleteHolding]
    exact find?_filter_not _ _

/-- Witness for the amended C8 theorem at the concrete store. -/
theorem route_delete_cascades_witness :
    Storage.getHoldingsByAccount (Routes.deleteAccountRoute demoStore5 4) 4 = [] ∧
    (Routes.deleteAccountRoute demoStore5 4).activities.filter (fun x => x.accountId == 4) = [] ∧
    Storage.getAccount (Routes.deleteAccountRoute demoStore5 4) 4 = none :=
  route_delete_cascades demoStore5 4 { demoETradeAccount with id := 4 } (by decide)

/-! ### C3 — exactly one activity per sync invocation -/

/-- The E*TRADE position loop never writes activities. -/
theorem ApiService.activities_etradeProcessPositions (aid : Nat) (s : Store)
    (ps : List ApiService.ETradePosition) :
    (ApiService.etradeProcessPositions aid s ps).activities = s.activities := by
  induction ps generalizing s with
  | nil => rfl
  | cons p ps ih =>
    simp only [ApiService.etradeProcessPositions, List.foldl_cons] at *
    rw [ih]
    unfold ApiService.etradeProcessPosition
    cases p.product <;> cases p.quick <|> p.complete <;> simp

/-- The E*TRADE position loop never bumps the activity counter. -/
theorem ApiService.caid_etradeProcessPositions (aid : Nat) (s : Store)
    (ps : List ApiService.ETradePosition) :
    (ApiService.etradeProcessPositions aid s ps).currentActivityId = s.currentActivityId := by
  induction ps generalizing s with
  | nil => rfl
  | cons p ps ih =>
    simp only [ApiService.etradeProcessPositions, List.foldl_cons] at *
    rw [ih]
    unfold ApiService.etradeProcessPosition
    cases p.product <;> cases p.quick <|> p.complete <;> simp

/-- The Schwab position loop never writes activities. -/
theorem ApiService.activities_schwabProcessPositions (aid : Nat) (s : Store)
    (ps : List ApiService.SchwabPosition) :
    (ApiService.schwabProcessPositions aid s ps).activities = s.activities := by
  induction ps generalizing s with
  | nil => rfl
  | cons p ps ih =>
    simp only [ApiService.schwabProcessPositions, List.foldl_cons] at *
    rw [ih]
    unfold ApiService.schwabProcessPosition
    cases p.instrument with
    | none => rfl
    | some instr => by_cases hq : 0 < p.longQuantity <;> simp [hq]

/-- The store carried by the Robinhood position loop, whether it completed
or threw mid-loop. -/
def ApiService.rhLoopStore (r : Except (String × Store) Store) : Store :=
  match r with
  | .ok s => s
  | .error (_, s) => s

/-- The Robinhood position loop never writes activities, on the success and
on the throw path alike. -/
theorem ApiService.activities_rhProcessPositions (env : ApiService.RobinhoodEnv)
    (aid : Nat) (s : Store) (ps : List ApiService.RHPosition) :
    (ApiService.rhLoopStore (ApiService.rhProcessPositions env aid s ps)).activities
      = s.activities := by
  induction ps generalizing s with
  | nil => rfl
  | cons p ps ih =>
    unfold ApiService.rhProcessPositions
    split
    · cases henv : env.instrumentFetch p.instrument with
      | error e => simp [ApiService.rhLoopStore]
      | ok instr => rw [ih]; simp
    · exact ih s

/-- Error stores of the E*TRADE `try` body keep the activity log unchanged;
its success store is `createActivity` of the account's `sync` record over a
store whose activity log equals the input's. -/
theorem ApiService.syncETradeBody_activities (env : ApiService.ETradeEnv)
    (s : Store) (aid now : Nat) :
    (∀ s2, ApiService.syncETradeBody env s aid now = .ok s2 →
      ∃ X : Store, s2 = Storage.createActivity X
        { accountId := aid, type := "sync",
          description := "E*TRADE account successfully synchronized",
          amount := none, symbol := none } now ∧ X.activities = s.activities) ∧
    (∀ e s2, ApiService.syncETradeBody env s aid now = .error (e, s2) →
      s2.activities = s.activities) := by
  unfold ApiService.syncETradeBody
  cases env.accountsResult with
  | error e => exact ⟨(by intro s2 h; cases h), (by intro e2 s2 h; cases h; rfl)⟩
  | ok accts =>
    cases accts with
    | nil => exact ⟨(by intro s2 h; cases h), (by intro e2 s2 h; cases h; rfl)⟩
    | cons ad rest =>
      cases env.balancesResult with
      | error e => exact ⟨(by intro s2 h; cases h), (by intro e2 s2 h; cases h; rfl)⟩
      | ok tv =>
        cases env.portfolioResult with
        | error e => exact ⟨(by intro s2 h; cases h), (by intro e2 s2 h; cases h; rfl)⟩
        | ok ps =>
          refine ⟨?_, (by intro e2 s2 h; cases h)⟩
          intro s2 h
          simp only [List.head?] at h
          cases h
          refine ⟨_, rfl, ?_⟩
          simp [ApiService.activities_etradeProcessPositions]

/-- C3 counterexample: invoking the E*TRADE sync for an account id that
does not exist throws the validation error before the `try` block, and the
activity log does not grow at all — zero activities, not one. -/
theorem sync_missing_account_writes_no_activity :
    (ApiService.syncETradeAccount demoETradeEnv demoStore1 9 5).1
      = Except.error "Account not properly authenticated" ∧
    (ApiService.syncETradeAccount demoETradeEnv demoStore1 9 5).2.activities.length
      = demoStore1.activities.length := by
  exact ⟨rfl, rfl⟩

/-- The Schwab token-expiry gate never writes activities, on either outcome. -/
theorem ApiService.schwabTokenPhase_activities (env : ApiService.SchwabEnv) (s : Store)
    (account : Account) (aid now : Nat) (tok : String) :
    (∀ s1 t tr, ApiService.schwabTokenPhase env s account aid now tok = .ok (s1, t, tr) →
      s1.activities = s.activities) ∧
    (∀ e s2 tr, ApiService.schwabTokenPhase env s account aid now tok = .error (e, s2, tr) →
      s2.activities = s.activities) := by
  constructor
  · intro s1 t tr h
    unfold ApiService.schwabTokenPhase at h
    repeat' split at h
    all_goals cases h
    all_goals simp
  · intro e s2 tr h
    unfold ApiService.schwabTokenPhase at h
    repeat' split at h
    all_goals cases h
    all_goals rfl

/-- Error stores of the Schwab fetch-and-reconcile phase keep the activity
log unchanged; its success store is `createActivity` of the account's `sync`
record over a store whose activity log equals the input's. -/
theorem ApiService.schwabFetchPhase_activities (env : ApiService.SchwabEnv) (s : Store)
    (aid now : Nat) (tok : String) (tr : List ApiService.SchwabCall) :
    (∀ s2 tr2, ApiService.schwabFetchPhase env s aid now tok tr = .ok (s2, tr2) →
      ∃ X : Store, s2 = Storage.createActivity X
        { accountId := aid, type := "sync",
          description := "Schwab account successfully synchronized",
          amount := none, symbol := none } now ∧ X.activities = s.activities) ∧
    (∀ e s2 tr2, ApiService.schwabFetchPhase env s aid now tok tr = .error (e, s2, tr2) →
      s2.activities = s.activities) := by
  constructor
  · intro s2 tr2 h
    unfold ApiService.schwabFetchPhase at h
    repeat' split at h
    all_goals cases h
    refine ⟨_, rfl, ?_⟩
    simp [ApiService.activities_schwabProcessPositions]
  · intro e2 s2 tr2 h
    unfold ApiService.schwabFetchPhase at h
    repeat' split at h
    all_goals cases h
    all_goals rfl

/-- Error stores of the Robinhood `try` body keep the activity log
unchanged; its success store is `createActivity` of the account's `sync`
record over a store whose activity log equals the input's. -/
theorem ApiService.syncRobinhoodBody_activities (env : ApiService.RobinhoodEnv)
    (s : Store) (aid now : Nat) :
    (∀ s2, ApiService.syncRobinhoodBody env s aid now = .ok s2 →
      ∃ X : Store, s2 = Storage.createActivity X
        { accountId := aid, type := "sync",
          description := "Robinhood account successfully synchronized",
          amount := none, symbol := none } now ∧ X.activities = s.activities) ∧
    (∀ e s2, ApiService.syncRobinhoodBody env s aid now = .error (e, s2) →
      s2.activities = s.activities) := by
  unfold ApiService.syncRobinhoodBody
  cases env.loginResult with
  | error e => exact ⟨(by intro s2 h; cases h), (by intro e2 s2 h; cases h; rfl)⟩
  | ok u =>
    cases env.accountsResult with
    | error e => exact ⟨(by intro s2 h; cases h), (by intro e2 s2 h; cases h; rfl)⟩
    | ok accountsList =>
      cases env.positionsResult with
      | error e => exact ⟨(by intro s2 h; cases h), (by intro e2 s2 h; cases h; rfl)⟩
      | ok positions =>
        cases accountsList with
        | nil => exact ⟨(by intro s2 h; cases h), (by intro e2 s2 h; cases h; rfl)⟩
        | cons ad rest =>
          simp only [List.head?]
          cases hloop : ApiService.rhProcessPositions env aid
              (Storage.updateAccount s aid
                { balance := some (ad.portfolio.total_value.getD 0),
                  externalAccountId := some (some ad.account_number),
                  isConnected := some true } now) positions with
          | error p =>
            obtain ⟨e, s2'⟩ := p
            have hact := ApiService.activities_rhProcessPositions env aid
              (Storage.updateAccount s aid
                { balance := some (ad.portfolio.total_value.getD 0),
                  externalAccountId := some (some ad.account_number),
                  isConnected := some true } now) positions
            rw [hloop] at hact
            refine ⟨(by intro s2 h; cases h), ?_⟩
            intro e2 s2 h
            cases h
            simpa [ApiService.rhLoopStore] using hact
          | ok s2' =>
            have hact := ApiService.activities_rhProcessPositions env aid
              (Storage.updateAccount s aid
                { balance := some (ad.portfolio.total_value.getD 0),
                  externalAccountId := some (some ad.account_number),
                  isConnected := some true } now) positions
            rw [hloop] at hact
            refine ⟨?_, (by intro e2 s2 h; cases h)⟩
            intro s2 h
            cases h
            simp only [ApiService.rhLoopStore] at hact
            refine ⟨s2', rfl, ?_⟩
            rw [hact]
            simp

/-- Appending one activity belonging to the account grows that account's
`MemStorage.getActivitiesByAccount` view by exactly one element. -/
theorem length_memActivities_append_own (s : Store) (aid : Nat) (act : Activity) (s2 : Store)
    (hacts : s2.activities = s.activities ++ [act]) (hacc : act.accountId = aid) :
    (MemStorage.getActivitiesByAccount s2 aid).length
      = (MemStorage.getActivitiesByAccount s aid).length + 1 := by
  unfold MemStorage.getActivitiesByAccount
  rw [(List.perm_insertionSort _ _).length_eq, (List.perm_insertionSort _ _).length_eq]
  rw [hacts, List.filter_append]
  simp [hacc]

/-- C3 as amended: a sync invocation that passes the initial validation
check (account present with the credentials the entry point demands, and
the provider client configured) appends exactly one activity record, that
record belongs to the synced account, its type is `sync` when the run
succeeds and `error` when anything inside the `try` block fails, and the
account's own activity log (`getActivitiesByAccount`) grows by exactly one
entry. Invocations that fail validation throw before the `try` block and
write no activity at all (see the counterexample). -/
theorem sync_validated_writes_exactly_one_activity :
    (∀ (env : ApiService.ETradeEnv) (s : Store) (aid now : Nat) (a : Account),
      Storage.getAccount s aid = some a → a.accessToken.isSome → a.refreshToken.isSome →
      env.configured = true →
      ∃ act : Activity,
        (ApiService.syncETradeAccount env s aid now).2.activities
          = s.activities ++ [act] ∧
        act.accountId = aid ∧
        act.type = (match (ApiService.syncETradeAccount env s aid now).1 with
          | .ok _ => "sync" | .error _ => "error") ∧
        (MemStorage.getActivitiesByAccount
            (ApiService.syncETradeAccount env s aid now).2 aid).length
          = (MemStorage.getActivitiesByAccount s aid).length + 1) ∧
    (∀ (env : ApiService.SchwabEnv) (s : Store) (aid now : Nat) (a : Account),
      Storage.getAccount s aid = some a → a.accessToken.isSome → env.configured = true →
      ∃ act : Activity,
        (ApiService.syncSchwabAccount env s aid now).2.1.activities
          = s.activities ++ [act] ∧
        act.accountId = aid ∧
        act.type = (match (ApiService.syncSchwabAccount env s aid now).1 with
          | .ok _ => "sync" | .error _ => "error") ∧
        (MemStorage.getActivitiesByAccount
            (ApiService.syncSchwabAccount env s aid now).2.1 aid).length
          = (MemStorage.getActivitiesByAccount s aid).length + 1) ∧
    (∀ (env : ApiService.RobinhoodEnv) (s : Store) (aid now : Nat),
      env.configured = true →
      ∃ act : Activity,
        (ApiService.syncRobinhoodAccount env s aid now).2.activities
          = s.activities ++ [act] ∧
        act.accountId = aid ∧
        act.type = (match (ApiService.syncRobinhoodAccount env s aid now).1 with
          | .ok _ => "sync" | .error _ => "error") ∧
        (MemStorage.getActivitiesByAccount
            (ApiService.syncRobinhoodAccount env s aid now).2 aid).length
          = (MemStorage.getActivitiesByAccount s aid).length + 1) := by
  refine ⟨?_, ?_, ?_⟩
  · intro env s aid now a hacct htok href hconf
    obtain ⟨t, ht⟩ := Option.isSome_iff_exists.mp htok
    obtain ⟨r, hr⟩ := Option.isSome_iff_exists.mp href
    cases hb : ApiService.syncETradeBody env s aid now with
    | ok s2 =>
      obtain ⟨X, hX2, hXact⟩ := (ApiService.syncETradeBody_activities env s aid now).1 s2 hb
      have hres : ApiService.syncETradeAccount env s aid now = (.ok (), s2) := by
        unfold ApiService.syncETradeAccount
        rw [hacct]
        simp [ht, hr, hconf, hb]
      have hacts : (ApiService.syncETradeAccount env s aid now).2.activities
          = s.activities ++
            [{ id := X.currentActivityId, accountId := aid, type := "sync",
               description := "E*TRADE account successfully synchronized",
               amount := none, symbol := none, timestamp := now }] := by
        rw [hres, hX2]
        simp [Storage.createActivity, hXact]
      refine ⟨_, hacts, rfl, ?_, length_memActivities_append_own s aid _ _ hacts rfl⟩
      rw [hres]
    | error p =>
      obtain ⟨e, s2⟩ := p
      have h2 := (ApiService.syncETradeBody_activities env s aid now).2 e s2 hb
      have hres : ApiService.syncETradeAccount env s aid now
          = (.error e, Storage.createActivity s2
              { accountId := aid, type := "error",
                description := "E*TRADE sync failed: " ++ e,
                amount := none, symbol := none } now) := by
        unfold ApiService.syncETradeAccount
        rw [hacct]
        simp [ht, hr, hconf, hb]
      have hacts : (ApiService.syncETradeAccount env s aid now).2.activities
          = s.activities ++
            [{ id := s2.currentActivityId, accountId := aid, type := "error",
               description := "E*TRADE sync failed: " ++ e,
               amount := none, symbol := none, timestamp := now }] := by
        rw [hres]
        simp [Storage.createActivity, h2]
      refine ⟨_, hacts, rfl, ?_, length_memActivities_append_own s aid _ _ hacts rfl⟩
      rw [hres]
  · intro env s aid now a hacct htok hconf
    obtain ⟨t, ht⟩ := Option.isSome_iff_exists.mp htok
    cases htk : ApiService.schwabTokenPhase env s a aid now t with
    | error p =>
      obtain ⟨e, s2, tr⟩ := p
      have h2 := (ApiService.schwabTokenPhase_activities env s a aid now t).2 e s2 tr htk
      have hres : ApiService.syncSchwabAccount env s aid now
          = (.error e, Storage.createActivity s2
              { accountId := aid, type := "error",
                description := "Schwab sync failed: " ++ e,
                amount := none, symbol := none } now, tr) := by
        unfold ApiService.syncSchwabAccount
        rw [hacct]
        simp [ht, hconf, htk]
      have hacts : (ApiService.syncSchwabAccount env s aid now).2.1.activities
          = s.activities ++
            [{ id := s2.currentActivityId, accountId := aid, type := "error",
               description := "Schwab sync failed: " ++ e,
               amount := none, symbol := none, timestamp := now }] := by
        rw [hres]
        simp [Storage.createActivity, h2]
      refine ⟨_, hacts, rfl, ?_, length_memActivities_append_own s aid _ _ hacts rfl⟩
      rw [hres]
    | ok q =>
      obtain ⟨s1, tok2, tr⟩ := q
      have h1 := (ApiService.schwabTokenPhase_activities env s a aid now t).1 s1 tok2 tr htk
      cases hf : ApiService.schwabFetchPhase env s1 aid now tok2 tr with
      | error p =>
        obtain ⟨e, s2, tr2⟩ := p
        have h2 := (ApiService.schwabFetchPhase_activities env s1 aid now tok2 tr).2 e s2 tr2 hf
        have hres : ApiService.syncSchwabAccount env s aid now
            = (.error e, Storage.createActivity s2
                { accountId := aid, type := "error",
                  description := "Schwab sync failed: " ++ e,
                  amount := none, symbol := none } now, tr2) := by
          unfold ApiService.syncSchwabAccount
          rw [hacct]
          simp [ht, hconf, htk, hf]
        have hacts : (ApiService.syncSchwabAccount env s aid now).2.1.activities
            = s.activities ++
              [{ id := s2.currentActivityId, accountId := aid, type := "error",
                 description := "Schwab sync failed: " ++ e,
                 amount := none, symbol := none, timestamp := now }] := by
          rw [hres]
          simp [Storage.createActivity, h2, h1]
        refine ⟨_, hacts, rfl, ?_, length_memActivities_append_own s aid _ _ hacts rfl⟩
        rw [hres]
      | ok q2 =>
        obtain ⟨s2, tr2⟩ := q2
        obtain ⟨X, hX2, hXact⟩ :=
          (ApiService.schwabFetchPhase_activities env s1 aid now tok2 tr).1 s2 tr2 hf
        have hres : ApiService.syncSchwabAccount env s aid now = (.ok (), s2, tr2) := by
          unfold ApiService.syncSchwabAccount
          rw [hacct]
          simp [ht, hconf, htk, hf]
        have hacts : (ApiService.syncSchwabAccount env s aid now).2.1.activities
            = s.activities ++
              [{ id := X.currentActivityId, accountId := aid, type := "sync",
                 description := "Schwab account successfully synchronized",
                 amount := none, symbol := none, timestamp := now }] := by
          rw [hres, hX2]
          simp [Storage.createActivity, hXact, h1]
        refine ⟨_, hacts, rfl, ?_, length_memActivities_append_own s aid _ _ hacts rfl⟩
        rw [hres]
  · intro env s aid now hconf
    cases hb : ApiService.syncRobinhoodBody env s aid now with
    | ok s2 =>
      obtain ⟨X, hX2, hXact⟩ := (ApiService.syncRobinhoodBody_activities env s aid now).1 s2 hb
      have hres : ApiService.syncRobinhoodAccount env s aid now = (.ok (), s2) := by
        unfold ApiService.syncRobinhoodAccount
        simp [hconf, hb]
      have hacts : (ApiService.syncRobinhoodAccount env s aid now).2.activities
          = s.activities ++
            [{ id := X.currentActivityId, accountId := aid, type := "sync",
               description := "Robinhood account successfully synchronized",
               amount := none, symbol := none, timestamp := now }] := by
        rw [hres, hX2]
        simp [Storage.createActivity, hXact]
      refine ⟨_, hacts, rfl, ?_, length_memActivities_append_own s aid _ _ hacts rfl⟩
      rw [hres]
    | error p =>
      obtain ⟨e, s2⟩ := p
      have h2 := (ApiService.syncRobinhoodBody_activities env s aid now).2 e s2 hb
      have hres : ApiService.syncRobinhoodAccount env s aid now
          = (.error e, Storage.createActivity s2
              { accountId := aid, type := "error",
                description := "Robinhood sync failed: " ++ e,
                amount := none, symbol := none } now) := by
        unfold ApiService.syncRobinhoodAccount
        simp [hconf, hb]
      have hacts : (ApiService.syncRobinhoodAccount env s aid now).2.activities
          = s.activities ++
            [{ id := s2.currentActivityId, accountId := aid, type := "error",
               description := "Robinhood sync failed: " ++ e,
               amount := none, symbol := none, timestamp := now }] := by
        rw [hres]
        simp [Storage.createActivity, h2]
      refine ⟨_, hacts, rfl, ?_, length_memActivities_append_own s aid _ _ hacts rfl⟩
      rw [hres]

/-- Witness for the amended C3 theorem at a concrete validated run. -/
theorem sync_validated_writes_exactly_one_activity_witness :
    ∃ act : Activity,
      (ApiService.syncETradeAccount demoETradeEnv demoStore1 1 5).2.activities
        = demoStore1.activities ++ [act] ∧
      act.accountId = 1 ∧
      act.type = (match (ApiService.syncETradeAccount demoETradeEnv demoStore1 1 5).1 with
        | .ok _ => "sync" | .error _ => "error") ∧
      (MemStorage.getActivitiesByAccount
          (ApiService.syncETradeAccount demoETradeEnv demoStore1 1 5).2 1).length
        = (MemStorage.getActivitiesByAccount demoStore1 1).length + 1 :=
  sync_validated_writes_exactly_one_activity.1 demoETradeEnv demoStore1 1 5
    demoETradeAccount (by decide) (by decide) (by decide) rfl

/-! ### C9 — positive-quantity guard in the Schwab and Plaid paths -/

/-- The upsert step keeps every holding of the account at positive shares
whenever the written data has positive shares. -/
theorem ApiService.upsertHolding_posShares (s : Store) (hd : InsertHolding) (aid : Nat)
    (hs : ∀ h ∈ Storage.getHoldingsByAccount s aid, 0 < h.shares) (hpos : 0 < hd.shares) :
    ∀ h ∈ Storage.getHoldingsByAccount (ApiService.upsertHolding s hd) aid, 0 < h.shares := by
  intro h hmem
  unfold ApiService.upsertHolding at hmem
  cases hfind : (Storage.getHoldingsByAccount s hd.accountId).find?
      (fun g => g.symbol == hd.symbol) with
  | some h0 =>
    rw [hfind] at hmem
    simp only [Storage.updateHolding, Storage.getHoldingsByAccount, List.mem_filter,
      List.mem_map] at hmem
    obtain ⟨⟨g, hg, hfg⟩, hacc⟩ := hmem
    by_cases hid : g.id == h0.id
    · rw [if_pos hid] at hfg
      rw [← hfg]
      exact hpos
    · rw [if_neg hid] at hfg
      subst hfg
      exact hs g (by simp [Storage.getHoldingsByAccount, List.mem_filter, hg, hacc])
  | none =>
    rw [hfind] at hmem
    simp only [Storage.createHolding, Storage.getHoldingsByAccount, List.filter_append,
      List.mem_append, List.mem_filter] at hmem
    rcases hmem with ⟨hg, hacc⟩ | hnew
    · exact hs h (by simp [Storage.getHoldingsByAccount, List.mem_filter, hg, hacc])
    · obtain ⟨hm, hacc2⟩ := hnew
      have : h = hd.toHolding s.currentHoldingId := by simpa using hm
      rw [this]
      exact hpos

/-- C9: (1) every holding returned by `PlaidService.getHoldings` has
strictly positive quantity; (2) a Schwab position with non-positive
`longQuantity` writes nothing; (3) for a processed Schwab position the
per-share price is the true quotient `marketValue / longQuantity` of its
positive share count, so the divisor is nonzero; (4) the Schwab position
loop keeps every holding of the account at strictly positive shares. -/
theorem positive_quantity_guard :
    (∀ (raws : List Plaid.RawHolding) (secs : List Plaid.Security) (h : Plaid.PHolding),
      h ∈ Plaid.getHoldings raws secs → 0 < h.quantity) ∧
    (∀ (aid : Nat) (s : Store) (p : ApiService.SchwabPosition),
      ¬ 0 < p.longQuantity → ApiService.schwabProcessPosition aid s p = s) ∧
    (∀ (aid : Nat) (instr : ApiService.SchwabInstrument) (p : ApiService.SchwabPosition),
      0 < p.longQuantity → p.marketValue.getD 0 ≠ 0 →
      (ApiService.schwabHoldingData aid instr p).currentPrice * p.longQuantity
        = p.marketValue.getD 0) ∧
    (∀ (aid : Nat) (s : Store) (ps : List ApiService.SchwabPosition),
      (∀ h ∈ Storage.getHoldingsByAccount s aid, 0 < h.shares) →
      ∀ h ∈ Storage.getHoldingsByAccount (ApiService.schwabProcessPositions aid s ps) aid,
        0 < h.shares) := by
  refine ⟨?_, ?_, ?_, ?_⟩
  · intro raws secs
    suffices hgen : ∀ acc : List Plaid.PHolding, (∀ h ∈ acc, 0 < h.quantity) →
        ∀ h ∈ raws.foldl (fun acc h =>
          match secs.find? (fun sec => sec.security_id == h.security_id) with
          | some sec => if 0 < h.quantity then acc ++ [Plaid.pHoldingOf h sec] else acc
          | none => acc) acc, 0 < h.quantity by
      intro h hmem
      exact hgen [] (by simp) h hmem
    induction raws with
    | nil => intro acc hacc h hmem; exact hacc h hmem
    | cons r raws ih =>
      intro acc hacc h hmem
      simp only [List.foldl_cons] at hmem
      refine ih _ ?_ h hmem
      cases secs.find? (fun sec => sec.security_id == r.security_id) with
      | none => exact hacc
      | some sec =>
        by_cases hq : 0 < r.quantity
        · simp only [if_pos hq]
          intro g hg
          rcases List.mem_append.mp hg with hg | hg
          · exact hacc g hg
          · simp only [List.mem_singleton] at hg
            rw [hg]
            exact hq
        · simpa [if_neg hq] using hacc
  · intro aid s p hq
    cases hinstr : p.instrument with
    | none => simp [ApiService.schwabProcessPosition, hinstr]
    | some instr => simp [ApiService.schwabProcessPosition, hinstr, hq]
  · intro aid instr p hq hmv
    unfold ApiService.schwabHoldingData
    simp only [if_neg hmv]
    exact div_mul_cancel₀ _ (ne_of_gt hq)
  · intro aid s ps hs
    induction ps generalizing s with
    | nil => exact hs
    | cons p ps ih =>
      simp only [ApiService.schwabProcessPositions, List.foldl_cons] at *
      refine ih _ ?_
      cases hinstr : p.instrument with
      | none => simpa [ApiService.schwabProcessPosition, hinstr] using hs
      | some instr =>
        by_cases hq : 0 < p.longQuantity
        · have heq : ApiService.schwabProcessPosition aid s p
              = ApiService.upsertHolding s (ApiService.schwabHoldingData aid instr p) := by
            simp [ApiService.schwabProcessPosition, hinstr, hq]
          rw [heq]
          exact ApiService.upsertHolding_posShares s _ aid hs hq
        · have heq : ApiService.schwabProcessPosition aid s p = s := by
            simp [ApiService.schwabProcessPosition, hinstr, hq]
          rw [heq]
          exact hs

/-- Witness for C9 at a concrete store and position list. -/
theorem positive_quantity_guard_witness :
    ∀ h ∈ Storage.getHoldingsByAccount
      (ApiService.schwabProcessPositions 2 demoStore2
        [{ instrument := some { symbol := "IBM", description := none, assetType := some "EQUITY" },
           longQuantity := 4, marketValue := some 100 }]) 2, 0 < h.shares :=
  positive_quantity_guard.2.2.2 2 demoStore2
    [{ instrument := some { symbol := "IBM", description := none, assetType := some "EQUITY" },
       longQuantity := 4, marketValue := some 100 }] (by decide)

/-! ### C6 — expired token: refresh once, use and persist the new token -/

/-- A call that presents an access token is not the refresh call. -/
theorem ApiService.SchwabCall.fetchToken_some_not_isRefresh (c : ApiService.SchwabCall)
    (tok : String) (h : c.fetchToken = some tok) : c.isRefresh = false := by
  cases c <;> simp_all [ApiService.SchwabCall.fetchToken, ApiService.SchwabCall.isRefresh]

/-- Every call the Schwab fetch phase appends to the trace is a fetch made
with the access token the phase was given. -/
theorem ApiService.schwabFetchPhase_trace (env : ApiService.SchwabEnv) (s : Store)
    (aid now : Nat) (tok : String) (tr : List ApiService.SchwabCall) :
    (∀ s2 tr2, ApiService.schwabFetchPhase env s aid now tok tr = .ok (s2, tr2) →
      ∃ ext, tr2 = tr ++ ext ∧ ∀ c ∈ ext, c.fetchToken = some tok) ∧
    (∀ e s2 tr2, ApiService.schwabFetchPhase env s aid now tok tr = .error (e, s2, tr2) →
      ∃ ext, tr2 = tr ++ ext ∧ ∀ c ∈ ext, c.fetchToken = some tok) := by
  constructor
  · intro s2 tr2 h
    unfold ApiService.schwabFetchPhase at h
    repeat' split at h
    all_goals cases h
    refine ⟨_, by (try simp only [List.append_assoc]); rfl, ?_⟩
    intro c hc
    simp only [List.mem_append, List.mem_singleton] at hc
    rcases hc with rfl | rfl | rfl <;> rfl
  · intro e s2 tr2 h
    unfold ApiService.schwabFetchPhase at h
    repeat' split at h
    all_goals cases h
    · refine ⟨_, by rfl, ?_⟩
      intro c hc
      simp only [List.mem_append, List.mem_singleton] at hc
      rcases hc with rfl
      rfl
    · refine ⟨_, by (try simp only [List.append_assoc]); rfl, ?_⟩
      intro c hc
      simp only [List.mem_append, List.mem_singleton] at hc
      rcases hc with rfl | rfl <;> rfl
    · refine ⟨_, by (try simp only [List.append_assoc]); rfl, ?_⟩
      intro c hc
      simp only [List.mem_append, List.mem_singleton] at hc
      rcases hc with rfl | rfl <;> rfl
    · refine ⟨_, by (try simp only [List.append_assoc]); rfl, ?_⟩
      intro c hc
      simp only [List.mem_append, List.mem_singleton] at hc
      rcases hc with rfl | rfl | rfl <;> rfl

/-- Error stores of the Schwab fetch phase are exactly the store the phase
started from: a failed fetch mutates nothing. -/
theorem ApiService.schwabFetchPhase_errStore (env : ApiService.SchwabEnv) (s : Store)
    (aid now : Nat) (tok : String) (tr : List ApiService.SchwabCall) :
    ∀ e s2 tr2, ApiService.schwabFetchPhase env s aid now tok tr = .error (e, s2, tr2) →
      s2 = s := by
  intro e s2 tr2 h
  unfold ApiService.schwabFetchPhase at h
  repeat' split at h
  all_goals cases h
  all_goals rfl

/-- `applyAccountUpdate` never changes the account id. -/
@[simp] theorem Storage.id_applyAccountUpdate (a : Account) (u : AccountUpdate) (now : Nat) :
    (Storage.applyAccountUpdate a u now).id = a.id := rfl

/-- Reading an account back after `updateAccount` returns the updated row. -/
theorem Storage.getAccount_updateAccount (s : Store) (id : Nat) (u : AccountUpdate) (now : Nat) :
    Storage.getAccount (Storage.updateAccount s id u now) id
      = (Storage.getAccount s id).map (fun a => Storage.applyAccountUpdate a u now) := by
  unfold Storage.getAccount Storage.updateAccount
  induction s.accounts with
  | nil => rfl
  | cons a l ih =>
    by_cases hid : a.id == id
    · simp only [List.map_cons, List.find?_cons]
      have : ((Storage.applyAccountUpdate a u now).id == id) = true := by
        simpa using hid
      rw [if_pos hid]
      simp [this, hid]
    · simp only [List.map_cons, List.find?_cons]
      rw [if_neg hid]
      simp only [hid, Bool.false_eq_true, if_false]
      simpa [hid] using ih

/-- The Schwab position loop leaves the accounts table untouched. -/
theorem ApiService.accounts_schwabProcessPositions (aid : Nat) (s : Store)
    (ps : List ApiService.SchwabPosition) :
    (ApiService.schwabProcessPositions aid s ps).accounts = s.accounts := by
  induction ps generalizing s with
  | nil => rfl
  | cons p ps ih =>
    simp only [ApiService.schwabProcessPositions, List.foldl_cons] at *
    rw [ih]
    cases hinstr : p.instrument with
    | none => simp [ApiService.schwabProcessPosition, hinstr]
    | some instr =>
      by_cases hq : 0 < p.longQuantity <;>
        simp [ApiService.schwabProcessPosition, hinstr, hq]

/-- The success store of the Schwab fetch phase differs from the input
store, on the accounts table, by one partial account update that does not
touch any credential field. -/
theorem ApiService.schwabFetchPhase_okAccounts (env : ApiService.SchwabEnv) (s : Store)
    (aid now : Nat) (tok : String) (tr : List ApiService.SchwabCall) :
    ∀ s2 tr2, ApiService.schwabFetchPhase env s aid now tok tr = .ok (s2, tr2) →
      ∃ u : AccountUpdate, s2.accounts = (Storage.updateAccount s aid u now).accounts ∧
        u.accessToken = none ∧ u.refreshToken = none ∧ u.tokenExpiry = none := by
  intro s2 tr2 h
  unfold ApiService.schwabFetchPhase at h
  repeat' split at h
  all_goals cases h
  rename_i accNum hhead x details hd
  refine ⟨{ balance := some (details.liquidationValue.getD 0), isConnected := some true,
            externalAccountId := some (some accNum) }, ?_, rfl, rfl, rfl⟩
  rw [Storage.accounts_createActivity, ApiService.accounts_schwabProcessPositions]

/-- C6: when the stored Schwab token is expired (`tokenExpiry ≤ now`) and a
refresh token is present and accepted by the provider, the sync performs
exactly one refresh call, makes every fetch call of the run with the newly
returned access token (never the stale one), and persists the rotated
access token, refresh token and recomputed absolute expiry on the account —
regardless of how the rest of the run turns out. -/
theorem schwab_expired_token_refreshes_once_and_uses_new_token
    (env : ApiService.SchwabEnv) (s : Store) (aid now : Nat) (a : Account)
    (t rt : String) (exp : Nat) (nt : ApiService.SchwabTokens)
    (hacct : Storage.getAccount s aid = some a)
    (ht : a.accessToken = some t)
    (hconf : env.configured = true)
    (hexp : a.tokenExpiry = some exp)
    (hpast : exp ≤ now)
    (hrt : a.refreshToken = some rt)
    (hrf : env.refresh rt = .ok nt) :
    ((ApiService.syncSchwabAccount env s aid now).2.2.filter (fun c => c.isRefresh)
        = [ApiService.SchwabCall.refreshTok rt]) ∧
    (∀ c ∈ (ApiService.syncSchwabAccount env s aid now).2.2, ∀ tok,
        c.fetchToken = some tok → tok = nt.accessToken) ∧
    (∃ a2, Storage.getAccount (ApiService.syncSchwabAccount env s aid now).2.1 aid = some a2 ∧
        a2.accessToken = some nt.accessToken ∧
        a2.refreshToken = some nt.refreshToken ∧
        a2.tokenExpiry = some (now + nt.expiresIn * 1000)) := by
  have htk : ApiService.schwabTokenPhase env s a aid now t
      = .ok (Storage.updateAccount s aid
              { accessToken := some (some nt.accessToken),
                refreshToken := some (some nt.refreshToken),
                tokenExpiry := some (some (now + nt.expiresIn * 1000)) } now,
             nt.accessToken, [ApiService.SchwabCall.refreshTok rt]) := by
    simp [ApiService.schwabTokenPhase, hexp, hpast, hrt, hrf]
  set u1 : AccountUpdate :=
    { accessToken := some (some nt.accessToken),
      refreshToken := some (some nt.refreshToken),
      tokenExpiry := some (some (now + nt.expiresIn * 1000)) } with hu1def
  set s1 := Storage.updateAccount s aid u1 now with hs1
  have hga1 : Storage.getAccount s1 aid = some (Storage.applyAccountUpdate a u1 now) := by
    rw [hs1, Storage.getAccount_updateAccount, hacct, Option.map_some']
  have ha1tok : (Storage.applyAccountUpdate a u1 now).accessToken = some nt.accessToken := rfl
  have ha1rt : (Storage.applyAccountUpdate a u1 now).refreshToken = some nt.refreshToken := rfl
  have ha1exp : (Storage.applyAccountUpdate a u1 now).tokenExpiry
      = some (now + nt.expiresIn * 1000) := rfl
  unfold ApiService.syncSchwabAccount
  rw [hacct]
  simp only [ht, hconf, not_true, if_false, htk]
  cases hf : ApiService.schwabFetchPhase env s1 aid now nt.accessToken
      [ApiService.SchwabCall.refreshTok rt] with
  | error p =>
    obtain ⟨e, s2, tr2⟩ := p
    obtain ⟨ext, hext, hextok⟩ :=
      (ApiService.schwabFetchPhase_trace env s1 aid now nt.accessToken
        [ApiService.SchwabCall.refreshTok rt]).2 e s2 tr2 hf
    have hserr : s2 = s1 :=
      ApiService.schwabFetchPhase_errStore env s1 aid now nt.accessToken
        [ApiService.SchwabCall.refreshTok rt] e s2 tr2 hf
    refine ⟨?_, ?_, ?_⟩
    · simp only [hext, List.filter_append]
      have hnil : ext.filter (fun c => c.isRefresh) = [] := by
        rw [List.filter_eq_nil_iff]
        intro c hc
        simp [ApiService.SchwabCall.fetchToken_some_not_isRefresh c _ (hextok c hc)]
      rw [hnil]
      simp [ApiService.SchwabCall.isRefresh]
    · intro c hc tok hcf
      rw [hext] at hc
      rcases List.mem_append.mp hc with hc | hc
      · simp only [List.mem_singleton] at hc
        subst hc
        cases hcf
      · have := hextok c hc
        rw [this] at hcf
        exact (Option.some_inj.mp hcf).symm
    · refine ⟨Storage.applyAccountUpdate a u1 now, ?_, ha1tok, ha1rt, ha1exp⟩
      have : Storage.getAccount (Storage.createActivity s2
          { accountId := aid, type := "error",
            description := "Schwab sync failed: " ++ e,
            amount := none, symbol := none } now) aid = Storage.getAccount s2 aid := rfl
      rw [this, hserr]
      exact hga1
  | ok q =>
    obtain ⟨s2, tr2⟩ := q
    obtain ⟨ext, hext, hextok⟩ :=
      (ApiService.schwabFetchPhase_trace env s1 aid now nt.accessToken
        [ApiService.SchwabCall.refreshTok rt]).1 s2 tr2 hf
    refine ⟨?_, ?_, ?_⟩
    · simp only [hext, List.filter_append]
      have hnil : ext.filter (fun c => c.isRefresh) = [] := by
        rw [List.filter_eq_nil_iff]
        intro c hc
        simp [ApiService.SchwabCall.fetchToken_some_not_isRefresh c _ (hextok c hc)]
      rw [hnil]
      simp [ApiService.SchwabCall.isRefresh]
    · intro c hc tok hcf
      rw [hext] at hc
      rcases List.mem_append.mp hc with hc | hc
      · simp only [List.mem_singleton] at hc
        subst hc
        cases hcf
      · have := hextok c hc
        rw [this] at hcf
        exact (Option.some_inj.mp hcf).symm
    · obtain ⟨u, hu4, hu1, hu2, hu3⟩ :=
        ApiService.schwabFetchPhase_okAccounts env s1 aid now nt.accessToken
          [ApiService.SchwabCall.refreshTok rt] s2 tr2 hf
      refine ⟨Storage.applyAccountUpdate (Storage.applyAccountUpdate a u1 now) u now,
        ?_, ?_, ?_, ?_⟩
      · have hcongr : Storage.getAccount s2 aid
            = Storage.getAccount (Storage.updateAccount s1 aid u now) aid := by
          unfold Storage.getAccount
          rw [hu4]
        rw [hcongr, Storage.getAccount_updateAccount, hga1, Option.map_some']
      · simp [Storage.applyAccountUpdate, hu1, ha1tok]
      · simp [Storage.applyAccountUpdate, hu2, ha1rt]
      · simp [Storage.applyAccountUpdate, hu3, ha1exp]

/-- Schwab run whose refresh succeeds with a rotated token pair. -/
def demoSchwabEnvGoodRefresh : ApiService.SchwabEnv :=
  { configured := true,
    refresh := fun r =>
      if r = "refresh1" then
        .ok { accessToken := "newtok", refreshToken := "newrefresh",
              expiresIn := 900, tokenType := "Bearer" }
      else .error "bad refresh token",
    accountsFetch := fun _ => .ok (),
    accountNumbersFetch := fun _ => .ok ["ACC1"],
    accountDetailsFetch := fun _ _ => .ok { liquidationValue := some 1234, positions := [] } }

/-- Witness for C6 at the concrete expired-token store. -/
theorem schwab_expired_token_refreshes_once_witness :
    ((ApiService.syncSchwabAccount demoSchwabEnvGoodRefresh demoStore3 3 100).2.2.filter
        (fun c => c.isRefresh) = [ApiService.SchwabCall.refreshTok "refresh1"]) ∧
    (∀ c ∈ (ApiService.syncSchwabAccount demoSchwabEnvGoodRefresh demoStore3 3 100).2.2,
        ∀ tok, c.fetchToken = some tok → tok = "newtok") ∧
    (∃ a2, Storage.getAccount
        (ApiService.syncSchwabAccount demoSchwabEnvGoodRefresh demoStore3 3 100).2.1 3
          = some a2 ∧
        a2.accessToken = some "newtok" ∧ a2.refreshToken = some "newrefresh" ∧
        a2.tokenExpiry = some (100 + 900 * 1000)) :=
  schwab_expired_token_refreshes_once_and_uses_new_token demoSchwabEnvGoodRefresh demoStore3 3 100
    demoSchwabAccount "oldtok" "refresh1" 10
    { accessToken := "newtok", refreshToken := "newrefresh", expiresIn := 900, tokenType := "Bearer" }
    (by decide) rfl rfl rfl (by decide) rfl rfl

/-! ### C7 — idempotence of the E*TRADE sync

The reconciliation loop is analysed through a list-level view of the
holdings table: `upsertRows` is `upsertHolding` restricted to the pair
(id counter, holdings rows), and the well-formedness invariant `WF`
captures the reachable stores of both storage implementations (unique row
ids, all below the id counter). -/

/-- Whether a stored row is the one the upsert of `hd` matches: same
account and same symbol. -/
def rowMatches (hd : InsertHolding) (h : Holding) : Bool :=
  h.accountId == hd.accountId && h.symbol == hd.symbol

/-- Replace the first row matching `hd` with the new data, keeping its id. -/
def updFirstRow (hd : InsertHolding) : List Holding → List Holding
  | [] => []
  | h :: t => if rowMatches hd h then hd.toHolding h.id :: t else h :: updFirstRow hd t

/-- `upsertHolding` on the (id counter, rows) pair. -/
def upsertRows (x : Nat × List Holding) (hd : InsertHolding) : Nat × List Holding :=
  if x.2.any (rowMatches hd) then (x.1, updFirstRow hd x.2)
  else (x.1 + 1, x.2 ++ [hd.toHolding x.1])

/-- Fold of `upsertRows` over a normalized batch, as the position loop does. -/
def upsertFoldRows (x : Nat × List Holding) (l : List InsertHolding) : Nat × List Holding :=
  l.foldl upsertRows x

/-- Pure update fold (no inserts), the shape run two takes. -/
def updFold (t : List Holding) (l : List InsertHolding) : List Holding :=
  l.foldl (fun t hd => updFirstRow hd t) t

/-- Identity, account and symbol of a row — everything the match logic and
the id bookkeeping can observe. -/
def skel (h : Holding) : Nat × Nat × String :=
  (h.id, h.accountId, h.symbol)

/-- Index of the first row the upsert of `hd` would match. -/
def fIdx (hd : InsertHolding) : List Holding → Option Nat
  | [] => none
  | h :: t => if rowMatches hd h then some 0 else (fIdx hd t).map (· + 1)

/-- Well-formedness of a (id counter, rows) pair: ids are unique and below
the counter — true of every store reachable through the repository
contract. -/
def WFRows (x : Nat × List Holding) : Prop :=
  (x.2.map (fun h => h.id)).Nodup ∧ ∀ h ∈ x.2, h.id < x.1

/-- Well-formedness of a store's holdings table. -/
def WF (s : Store) : Prop :=
  WFRows (s.currentHoldingId, s.holdings)

/-- `hd` is the last write of its (account, symbol) key in the batch. -/
def lastOccIn (l : List InsertHolding) (hd : InsertHolding) : Prop :=
  ∃ l₁ l₂, l = l₁ ++ hd :: l₂ ∧
    ∀ g ∈ l₂, ¬ (g.accountId = hd.accountId ∧ g.symbol = hd.symbol)

/-- `rowMatches` only looks at the key of the write. -/
theorem rowMatches_key_congr {hd hd' : InsertHolding}
    (hacc : hd'.accountId = hd.accountId) (hsym : hd'.symbol = hd.symbol) :
    rowMatches hd' = rowMatches hd := by
  funext h
  simp [rowMatches, hacc, hsym]

/-- `fIdx` only looks at the key of the write. -/
theorem fIdx_key_congr {hd hd' : InsertHolding}
    (hacc : hd'.accountId = hd.accountId) (hsym : hd'.symbol = hd.symbol)
    (L : List Holding) : fIdx hd' L = fIdx hd L := by
  induction L with
  | nil => rfl
  | cons h t ih => simp [fIdx, rowMatches_key_congr hacc hsym, ih]

/-- The row produced by an update has the same skeleton as the row it
replaces. -/
theorem skel_toHolding_of_rowMatches {hd : InsertHolding} {h : Holding}
    (hm : rowMatches hd h) : skel (hd.toHolding h.id) = skel h := by
  simp only [rowMatches, Bool.and_eq_true, beq_iff_eq] at hm
  simp [skel, InsertHolding.toHolding, hm.1, hm.2]

/-- Updating in place preserves the skeletons of all rows. -/
theorem map_skel_updFirstRow (hd : InsertHolding) (t : List Holding) :
    (updFirstRow hd t).map skel = t.map skel := by
  induction t with
  | nil => rfl
  | cons h t ih =>
    by_cases hm : rowMatches hd h
    · simp [updFirstRow, hm, skel_toHolding_of_rowMatches hm]
    · simp [updFirstRow, hm, ih]

/-- Updating in place preserves the id column. -/
theorem map_id_updFirstRow (hd : InsertHolding) (t : List Holding) :
    (updFirstRow hd t).map (fun h => h.id) = t.map (fun h => h.id) := by
  induction t with
  | nil => rfl
  | cons h t ih =>
    by_cases hm : rowMatches hd h
    · simp [updFirstRow, hm, InsertHolding.toHolding]
    · simp [updFirstRow, hm, ih]

/-- `fIdx` is a function of the skeletons. -/
theorem fIdx_congr_of_skel {t L : List Holding} (hsk : t.map skel = L.map skel)
    (hd : InsertHolding) : fIdx hd t = fIdx hd L := by
  induction t generalizing L with
  | nil =>
    cases L with
    | nil => rfl
    | cons y L => simp at hsk
  | cons x t ih =>
    cases L with
    | nil => simp at hsk
    | cons y L =>
      simp only [List.map_cons, List.cons.injEq] at hsk
      have hm : rowMatches hd x = rowMatches hd y := by
        have h1 : x.accountId = y.accountId := by
          have := congrArg (fun p => p.2.1) hsk.1
          simpa [skel] using this
        have h2 : x.symbol = y.symbol := by
          have := congrArg (fun p => p.2.2) hsk.1
          simpa [skel] using this
        simp [rowMatches, h1, h2]
      simp [fIdx, hm, ih hsk.2]

/-- Characterization of `updFirstRow` through `fIdx`: no match is a no-op. -/
theorem updFirstRow_of_fIdx_none {hd : InsertHolding} {t : List Holding}
    (h : fIdx hd t = none) : updFirstRow hd t = t := by
  induction t with
  | nil => rfl
  | cons x t ih =>
    by_cases hm : rowMatches hd x
    · simp [fIdx, hm] at h
    · simp only [fIdx, hm, Bool.false_eq_true, if_false, Option.map_eq_none'] at h
      simp [updFirstRow, hm, ih h]

/-- Characterization of `updFirstRow` through `fIdx`: a match is a
single-row replacement at the matched index, keeping that row's id. -/
theorem updFirstRow_of_fIdx_some {hd : InsertHolding} {t : List Holding} {j : Nat}
    (hj : fIdx hd t = some j) :
    ∃ h, t[j]? = some h ∧ rowMatches hd h = true ∧
      updFirstRow hd t = t.set j (hd.toHolding h.id) := by
  induction t generalizing j with
  | nil => cases hj
  | cons x t ih =>
    by_cases hm : rowMatches hd x
    · simp only [fIdx, hm, if_true, Option.some.injEq] at hj
      subst hj
      exact ⟨x, by simp, hm, by simp [updFirstRow, hm]⟩
    · simp only [fIdx, hm, Bool.false_eq_true, if_false, Option.map_eq_some'] at hj
      obtain ⟨j', hj', rfl⟩ := hj
      obtain ⟨h, hget, hmm, hupd⟩ := ih hj'
      exact ⟨h, by simpa using hget, hmm, by simp [updFirstRow, hm, hupd, List.set_cons_succ]⟩

/-- A row index returned by `fIdx` is in range. -/
theorem fIdx_lt_length {hd : InsertHolding} {t : List Holding} {j : Nat}
    (hj : fIdx hd t = some j) : j < t.length := by
  obtain ⟨h, hget, -, -⟩ := updFirstRow_of_fIdx_some hj
  exact (List.getElem?_eq_some.mp hget).1

/-- `any (rowMatches hd)` is exactly `fIdx` succeeding. -/
theorem any_rowMatches_iff_fIdx {hd : InsertHolding} {t : List Holding} :
    t.any (rowMatches hd) = true ↔ ∃ j, fIdx hd t = some j := by
  induction t with
  | nil => simp [fIdx]
  | cons x t ih =>
    by_cases hm : rowMatches hd x
    · simp [fIdx, hm]
    · simp only [List.any_cons, hm, Bool.false_or, fIdx, Bool.false_eq_true, if_false]
      rw [ih]
      constructor
      · rintro ⟨j, hj⟩
        exact ⟨j + 1, by simp [hj]⟩
      · rintro ⟨j, hj⟩
        rcases Option.map_eq_some'.mp hj with ⟨j', hj', -⟩
        exact ⟨j', hj'⟩

/-- Looking for a symbol among one account's holdings is one filtered
search over the whole table. -/
theorem find?_filter_account (l : List Holding) (aid : Nat) (sym : String) :
    (l.filter (fun h => h.accountId == aid)).find? (fun h => h.symbol == sym)
      = l.find? (fun h => h.accountId == aid && h.symbol == sym) := by
  induction l with
  | nil => rfl
  | cons x t ih =>
    by_cases ha : x.accountId == aid
    · by_cases hs : x.symbol == sym
      · simp [List.filter_cons, ha, List.find?_cons, hs]
      · simp [List.filter_cons, ha, List.find?_cons, hs, ih]
    · simp [List.filter_cons, ha, List.find?_cons, ih]

/-- With unique row ids, the update-by-id the sync issues is exactly the
first-match replacement. -/
theorem map_update_eq_updFirstRow {l : List Holding} {hd : InsertHolding} {h0 : Holding}
    (hfind : l.find? (fun h => rowMatches hd h) = some h0)
    (hnd : (l.map (fun h => h.id)).Nodup) :
    l.map (fun h => if h.id == h0.id then hd.toHolding h.id else h) = updFirstRow hd l := by
  induction l with
  | nil => cases hfind
  | cons x t ih =>
    simp only [List.map_cons, List.nodup_cons, List.mem_map] at hnd
    by_cases hm : rowMatches hd x
    · rw [List.find?_cons_of_pos _ hm] at hfind
      have hx0 : h0 = x := (Option.some_inj.mp hfind).symm
      rw [hx0]
      simp only [updFirstRow, hm, if_true, List.map_cons, beq_self_eq_true]
      congr 1
      have : ∀ y ∈ t, (if y.id == x.id then hd.toHolding y.id else y) = y := by
        intro y hy
        have : ¬ y.id = x.id := by
          intro hcontra
          exact hnd.1 ⟨y, hy, hcontra⟩
        simp [this]
      rw [List.map_congr_left this]
      simp
    · rw [List.find?_cons_of_neg _ hm] at hfind
      have hmem : h0 ∈ t := List.mem_of_find?_eq_some hfind
      have hne : ¬ x.id == h0.id := by
        simp only [beq_iff_eq]
        intro hcontra
        exact hnd.1 ⟨h0, hmem, hcontra.symm⟩
      simp only [updFirstRow, hm, Bool.false_eq_true, if_false, List.map_cons, hne]
      rw [ih hfind hnd.2]

/-- `upsertHolding` acts on the (id counter, rows) pair as `upsertRows`,
and touches nothing else, provided ids are unique. -/
theorem upsertHolding_eq_upsertRows (s : Store) (hd : InsertHolding) (hwf : WF s) :
    ApiService.upsertHolding s hd
      = { s with
          currentHoldingId := (upsertRows (s.currentHoldingId, s.holdings) hd).1,
          holdings := (upsertRows (s.currentHoldingId, s.holdings) hd).2 } := by
  unfold ApiService.upsertHolding
  have hb1 : (Storage.getHoldingsByAccount s hd.accountId).find? (fun h => h.symbol == hd.symbol)
      = s.holdings.find? (fun h => rowMatches hd h) := by
    rw [Storage.getHoldingsByAccount, find?_filter_account]
    rfl
  rw [hb1]
  cases hfind : s.holdings.find? (fun h => rowMatches hd h) with
  | none =>
    have hany : s.holdings.any (rowMatches hd) = false := by
      rw [List.any_eq_false]
      intro h hmem
      exact List.find?_eq_none.mp hfind h hmem
    simp [Storage.createHolding, upsertRows, hany]
  | some h0 =>
    have hany : s.holdings.any (rowMatches hd) = true := by
      rw [List.any_eq_true]
      exact ⟨h0, List.mem_of_find?_eq_some hfind, List.find?_some hfind⟩
    simp only [Storage.updateHolding, upsertRows, hany, if_true]
    congr 1
    exact map_update_eq_updFirstRow hfind hwf.1

/-- One upsert preserves well-formedness of the (id counter, rows) pair. -/
theorem WFRows_upsertRows {x : Nat × List Holding} (hd : InsertHolding)
    (h : WFRows x) : WFRows (upsertRows x hd) := by
  unfold upsertRows
  by_cases hany : x.2.any (rowMatches hd)
  · rw [if_pos hany]
    refine ⟨by rw [map_id_updFirstRow]; exact h.1, ?_⟩
    intro h' hmem
    have hidmem : h'.id ∈ x.2.map (fun g => g.id) := by
      rw [← map_id_updFirstRow hd x.2]
      exact List.mem_map_of_mem _ hmem
    obtain ⟨g, hg, hgid⟩ := List.mem_map.mp hidmem
    rw [← hgid]
    exact h.2 g hg
  · rw [if_neg hany]
    constructor
    · simp only [List.map_append, List.map_cons, List.map_nil]
      rw [List.nodup_append]
      refine ⟨h.1, List.nodup_singleton _, ?_⟩
      intro i hi hi2
      simp only [InsertHolding.toHolding, List.mem_singleton] at hi2
      obtain ⟨g, hg, hgid⟩ := List.mem_map.mp hi
      subst hi2
      exact absurd (hgid ▸ h.2 g hg) (lt_irrefl _)
    · intro h' hmem
      rcases List.mem_append.mp hmem with hmem | hmem
      · exact Nat.lt_succ_of_lt (h.2 h' hmem)
      · simp only [List.mem_singleton] at hmem
        subst hmem
        exact Nat.lt_succ_self _
  
/-- The upsert fold preserves well-formedness. -/
theorem WFRows_upsertFoldRows {x : Nat × List Holding} (l : List InsertHolding)
    (h : WFRows x) : WFRows (upsertFoldRows x l) := by
  induction l generalizing x with
  | nil => exact h
  | cons hd l ih =>
    simp only [upsertFoldRows, List.foldl_cons] at *
    exact ih (WFRows_upsertRows hd h)

/-- A found index survives an append. -/
theorem fIdx_append_of_some {hd : InsertHolding} {t : List Holding} {z : Holding} {j : Nat}
    (h : fIdx hd t = some j) : fIdx hd (t ++ [z]) = some j := by
  induction t generalizing j with
  | nil => cases h
  | cons x t ih =>
    by_cases hm : rowMatches hd x
    · simp only [fIdx, hm, if_true, Option.some.injEq] at h
      simp [fIdx, hm, h]
    · simp only [fIdx, hm, Bool.false_eq_true, if_false, Option.map_eq_some'] at h
      obtain ⟨j', hj', rfl⟩ := h
      simp [fIdx, hm, ih hj']

/-- Appending a matching row to a match-free table puts the first match at
the end. -/
theorem fIdx_append_of_none {hd : InsertHolding} {t : List Holding} {z : Holding}
    (h : fIdx hd t = none) :
    fIdx hd (t ++ [z]) = if rowMatches hd z then some t.length else none := by
  induction t with
  | nil => simp [fIdx]
  | cons x t ih =>
    by_cases hm : rowMatches hd x
    · simp [fIdx, hm] at h
    · simp only [fIdx, hm, Bool.false_eq_true, if_false, Option.map_eq_none'] at h
      simp only [List.cons_append, fIdx, hm, Bool.false_eq_true, if_false, List.append_eq]
      rw [ih h]
      by_cases hz : rowMatches hd z <;> simp [hz]

/-- The store-level reconcile fold. -/
def foldUpsert (s : Store) (l : List InsertHolding) : Store :=
  l.foldl ApiService.upsertHolding s

/-- The reconcile fold acts on the (id counter, rows) pair as
`upsertFoldRows`, stays well-formed, and touches no other table. -/
theorem foldUpsert_spec (l : List InsertHolding) (s : Store) (hwf : WF s) :
    (foldUpsert s l).holdings = (upsertFoldRows (s.currentHoldingId, s.holdings) l).2 ∧
    (foldUpsert s l).currentHoldingId = (upsertFoldRows (s.currentHoldingId, s.holdings) l).1 ∧
    WF (foldUpsert s l) ∧
    (foldUpsert s l).accounts = s.accounts ∧
    (foldUpsert s l).activities = s.activities := by
  induction l generalizing s with
  | nil => exact ⟨rfl, rfl, hwf, rfl, rfl⟩
  | cons hd l ih =>
    simp only [foldUpsert, List.foldl_cons, upsertFoldRows] at *
    rw [upsertHolding_eq_upsertRows s hd hwf]
    have hwf' : WF { s with
        currentHoldingId := (upsertRows (s.currentHoldingId, s.holdings) hd).1,
        holdings := (upsertRows (s.currentHoldingId, s.holdings) hd).2 } := by
      unfold WF WFRows at *
      simpa using WFRows_upsertRows hd hwf
    have := ih _ hwf'
    simpa using this

/-- The normalized batch the E*TRADE position loop writes: one
`holdingData` per position that has both a product and a data block. -/
def etradeHds (aid : Nat) (ps : List ApiService.ETradePosition) : List InsertHolding :=
  ps.filterMap (fun p => match p.product, p.quick <|> p.complete with
    | some i, some d => some (ApiService.etradeHoldingData aid i d)
    | _, _ => none)

/-- The E*TRADE position loop is the reconcile fold over its batch. -/
theorem etradeProcessPositions_eq_foldUpsert (aid : Nat) (s : Store)
    (ps : List ApiService.ETradePosition) :
    ApiService.etradeProcessPositions aid s ps = foldUpsert s (etradeHds aid ps) := by
  induction ps generalizing s with
  | nil => rfl
  | cons p ps ih =>
    simp only [ApiService.etradeProcessPositions, List.foldl_cons, etradeHds,
      List.filterMap_cons] at *
    cases hp : p.product with
    | none =>
      have hstep : ApiService.etradeProcessPosition aid s p = s := by
        unfold ApiService.etradeProcessPosition
        rw [hp]
      rw [hstep]
      simpa [etradeHds] using ih s
    | some i =>
      cases hq : p.quick <|> p.complete with
      | none =>
        have hstep : ApiService.etradeProcessPosition aid s p = s := by
          unfold ApiService.etradeProcessPosition
          rw [hp, hq]
        rw [hstep]
        simpa [etradeHds] using ih s
      | some d =>
        have hstep : ApiService.etradeProcessPosition aid s p
            = ApiService.upsertHolding s (ApiService.etradeHoldingData aid i d) := by
          unfold ApiService.etradeProcessPosition
          rw [hp, hq]
        rw [hstep]
        simpa [etradeHds, foldUpsert] using
          ih (ApiService.upsertHolding s (ApiService.etradeHoldingData aid i d))

/-- Every write in a batch has a last write of the same key. -/
theorem lastOcc_exists {l : List InsertHolding} {hd : InsertHolding} (hmem : hd ∈ l) :
    ∃ hd₁, lastOccIn l hd₁ ∧ hd₁.accountId = hd.accountId ∧ hd₁.symbol = hd.symbol := by
  induction l using List.reverseRecOn with
  | nil => cases hmem
  | append_singleton t q ih =>
    by_cases hkey : q.accountId = hd.accountId ∧ q.symbol = hd.symbol
    · exact ⟨q, ⟨t, [], by simp, by simp⟩, hkey.1, hkey.2⟩
    · have hmem' : hd ∈ t := by
        rcases List.mem_append.mp hmem with h | h
        · exact h
        · simp only [List.mem_singleton] at h
          subst h
          exact absurd ⟨rfl, rfl⟩ hkey
      obtain ⟨hd₁, ⟨l₁, l₂, heq, hall⟩, hacc, hsym⟩ := ih hmem'
      refine ⟨hd₁, ⟨l₁, l₂ ++ [q], by rw [heq]; simp, ?_⟩, hacc, hsym⟩
      intro g hg
      rcases List.mem_append.mp hg with hg | hg
      · exact hall g hg
      · simp only [List.mem_singleton] at hg
        subst hg
        rw [← hacc, ← hsym] at hkey
        exact hkey

/-- Splitting a last-write fact over a snoc: the last write is the final
element, or it lives in the prefix with a different key from the final
element. -/
theorem lastOccIn_snoc {l : List InsertHolding} {q hd₁ : InsertHolding}
    (h : lastOccIn (l ++ [q]) hd₁) :
    hd₁ = q ∨ (lastOccIn l hd₁ ∧
      ¬ (q.accountId = hd₁.accountId ∧ q.symbol = hd₁.symbol)) := by
  obtain ⟨l₁, l₂, heq, hall⟩ := h
  rcases List.eq_nil_or_concat l₂ with rfl | ⟨l₂', z, rfl⟩
  · left
    have hinj := List.append_inj' heq (by simp)
    have hq : q = hd₁ := by simpa using hinj.2
    exact hq.symm
  · right
    rw [List.concat_eq_append] at heq
    have heq' : l ++ [q] = (l₁ ++ hd₁ :: l₂') ++ [z] := by
      rw [heq]
      simp
    have hinj := List.append_inj' heq' (by simp)
    have hz : q = z := by simpa using hinj.2
    subst hz
    refine ⟨⟨l₁, l₂', hinj.1, ?_⟩, ?_⟩
    · intro g hg
      exact hall g (by simp [List.concat_eq_append, hg])
    · exact hall q (by simp [List.concat_eq_append])

/-- An in-place batch write matches its own row. -/
theorem rowMatches_toHolding_self (hd : InsertHolding) (id : Nat) :
    rowMatches hd (hd.toHolding id) = true := by
  simp [rowMatches, InsertHolding.toHolding]

/-- After the reconcile fold, the first row of each key written by the
batch holds the data of the batch's last write of that key. -/
theorem upsertFoldRows_lastWrite (l : List InsertHolding) (x : Nat × List Holding)
    (hd₁ : InsertHolding) (hlast : lastOccIn l hd₁) :
    ∃ j h, fIdx hd₁ (upsertFoldRows x l).2 = some j ∧
      (upsertFoldRows x l).2[j]? = some h ∧ h = hd₁.toHolding h.id := by
  induction l using List.reverseRecOn generalizing hd₁ with
  | nil =>
    obtain ⟨l₁, l₂, heq, -⟩ := hlast
    cases l₁ <;> simp at heq
  | append_singleton l q ih =>
    have hfold : upsertFoldRows x (l ++ [q]) = upsertRows (upsertFoldRows x l) q := by
      simp [upsertFoldRows, List.foldl_append]
    rcases lastOccIn_snoc hlast with rfl | ⟨hl, hkey⟩
    · -- the last element itself: its key's first row now carries its data
      rw [hfold]
      by_cases hany : (upsertFoldRows x l).2.any (rowMatches hd₁)
      · obtain ⟨j, hj⟩ := any_rowMatches_iff_fIdx.mp hany
        obtain ⟨h, hget, hmm, hupd⟩ := updFirstRow_of_fIdx_some hj
        refine ⟨j, hd₁.toHolding h.id, ?_, ?_, rfl⟩
        · simp only [upsertRows, hany, if_true]
          rw [fIdx_congr_of_skel (map_skel_updFirstRow hd₁ _)]
          exact hj
        · simp only [upsertRows, hany, if_true]
          rw [hupd]
          exact List.getElem?_set_eq (fIdx_lt_length hj)
      · have hidx : fIdx hd₁ (upsertFoldRows x l).2 = none := by
          rcases hfi : fIdx hd₁ (upsertFoldRows x l).2 with _ | j
          · rfl
          · exact absurd (any_rowMatches_iff_fIdx.mpr ⟨j, hfi⟩) hany
        refine ⟨(upsertFoldRows x l).2.length, hd₁.toHolding (upsertFoldRows x l).1, ?_, ?_, rfl⟩
        · simp only [upsertRows, hany, Bool.false_eq_true, if_false]
          rw [fIdx_append_of_none hidx, rowMatches_toHolding_self]
          simp
        · simp only [upsertRows, hany, Bool.false_eq_true, if_false]
          exact List.getElem?_concat_length _ _
    · -- the last write lives in the prefix; the final write has another key
      obtain ⟨j, h, hidx, hget, hdata⟩ := ih _ hl
      rw [hfold]
      by_cases hany : (upsertFoldRows x l).2.any (rowMatches q)
      · obtain ⟨j', hj'⟩ := any_rowMatches_iff_fIdx.mp hany
        obtain ⟨h', hget', hmm', hupd'⟩ := updFirstRow_of_fIdx_some hj'
        have hne : j ≠ j' := by
          intro hcontra
          subst hcontra
          obtain ⟨h'', hget'', hmm'', -⟩ := updFirstRow_of_fIdx_some hidx
          rw [hget] at hget''
          cases hget''
          rw [hget] at hget'
          cases hget'
          simp only [rowMatches, Bool.and_eq_true, beq_iff_eq] at hmm' hmm''
          exact hkey ⟨hmm'.1 ▸ hmm''.1.symm ▸ rfl, hmm'.2 ▸ hmm''.2.symm ▸ rfl⟩
        refine ⟨j, h, ?_, ?_, hdata⟩
        · simp only [upsertRows, hany, if_true]
          rw [fIdx_congr_of_skel (map_skel_updFirstRow q _)]
          exact hidx
        · simp only [upsertRows, hany, if_true]
          rw [hupd', List.getElem?_set_ne (fun hc => hne hc.symm)]
          exact hget
      · refine ⟨j, h, ?_, ?_, hdata⟩
        · simp only [upsertRows, hany, Bool.false_eq_true, if_false]
          exact fIdx_append_of_some hidx
        · simp only [upsertRows, hany, Bool.false_eq_true, if_false]
          rw [List.getElem?_append]
          rw [if_pos (fIdx_lt_length hidx)]
          exact hget

/-- When every key of the batch is already present, the reconcile fold
inserts nothing: it is a pure sequence of in-place updates and the id
counter does not move. -/
theorem upsertFoldRows_eq_updFold {t L : List Holding} (l : List InsertHolding) (c : Nat)
    (hsk : t.map skel = L.map skel)
    (hpres : ∀ hd ∈ l, ∃ j, fIdx hd L = some j) :
    upsertFoldRows (c, t) l = (c, updFold t l) := by
  induction l generalizing t with
  | nil => rfl
  | cons hd l ih =>
    obtain ⟨j, hj⟩ := hpres hd (List.mem_cons_self hd l)
    have hjt : fIdx hd t = some j := by
      rw [fIdx_congr_of_skel hsk]
      exact hj
    have hany : t.any (rowMatches hd) = true := any_rowMatches_iff_fIdx.mpr ⟨j, hjt⟩
    simp only [upsertFoldRows, updFold, List.foldl_cons, upsertRows, hany, if_true]
    exact ih ((map_skel_updFirstRow hd t).trans hsk)
      (fun g hg => hpres g (List.mem_cons_of_mem hd hg))

/-- Fixpoint lemma: folding in-place updates over a table that already
holds, at the first row of every written key, the data of that key's last
write, reproduces the table unchanged. -/
theorem updFold_fixpoint (l : List InsertHolding) (L : List Holding) :
    ∀ t : List Holding, t.map skel = L.map skel →
    (∀ hd₁, lastOccIn l hd₁ →
      ∃ j h, fIdx hd₁ L = some j ∧ L[j]? = some h ∧ h = hd₁.toHolding h.id) →
    (∀ j, j < L.length → t[j]? = L[j]? ∨ ∃ hd₁ ∈ l, fIdx hd₁ L = some j) →
    updFold t l = L := by
  induction l with
  | nil =>
    intro t hsk hB hC
    have hlen : t.length = L.length := by
      have := congrArg List.length hsk
      simpa using this
    simp only [updFold, List.foldl_nil]
    apply List.ext_getElem?
    intro n
    by_cases hn : n < L.length
    · rcases hC n hn with h | ⟨hd₁, hmem, -⟩
      · exact h
      · cases hmem
    · rw [List.getElem?_eq_none (by omega), List.getElem?_eq_none (by omega)]
  | cons hd l ih =>
    intro t hsk hB hC
    obtain ⟨hd₁, hlast₁, hacc₁, hsym₁⟩ := lastOcc_exists (List.mem_cons_self hd l)
    obtain ⟨j0, h', hj0L', hget', hdata'⟩ := hB hd₁ hlast₁
    have hj0L : fIdx hd L = some j0 := by
      rw [← fIdx_key_congr hacc₁ hsym₁]
      exact hj0L'
    have hj0t : fIdx hd t = some j0 := by
      rw [fIdx_congr_of_skel hsk]
      exact hj0L
    obtain ⟨h, hget, hmm, hupd⟩ := updFirstRow_of_fIdx_some hj0t
    have hlen : t.length = L.length := by
      have := congrArg List.length hsk
      simpa using this
    have hskel' : (updFirstRow hd t).map skel = L.map skel :=
      (map_skel_updFirstRow hd t).trans hsk
    simp only [updFold, List.foldl_cons]
    have hBmono : ∀ g, lastOccIn l g → lastOccIn (hd :: l) g := by
      intro g hg
      obtain ⟨l₁, l₂, heq, hall⟩ := hg
      exact ⟨hd :: l₁, l₂, by rw [heq]; rfl, hall⟩
    refine ih (updFirstRow hd t) hskel' (fun g hg => hB g (hBmono g hg)) ?_
    intro j hjlen
    by_cases hjj : j = j0
    · subst hjj
      by_cases hocc : l.any (fun g => g.accountId == hd.accountId && g.symbol == hd.symbol)
      · obtain ⟨g, hg, hgkey⟩ := List.any_eq_true.mp hocc
        simp only [Bool.and_eq_true, beq_iff_eq] at hgkey
        right
        exact ⟨g, hg, by rw [fIdx_key_congr hgkey.1 hgkey.2]; exact hj0L⟩
      · left
        have hlasthd : lastOccIn (hd :: l) hd := by
          refine ⟨[], l, rfl, ?_⟩
          intro g hg hcontra
          have := List.any_eq_false.mp (Bool.eq_false_iff.mpr hocc) g hg
          simp only [Bool.and_eq_true, beq_iff_eq] at this
          exact this ⟨hcontra.1, hcontra.2⟩
        obtain ⟨j', h'', hj', hget'', hdata''⟩ := hB hd hlasthd
        have hjeq : j' = j := by
          rw [hj0L] at hj'
          exact (Option.some_inj.mp hj').symm
        subst hjeq
        have hids : h.id = h''.id := by
          have h1 := congrArg (fun m => m[j']?) hsk
          simp only [List.getElem?_map] at h1
          rw [hget, hget''] at h1
          simpa [skel] using congrArg (fun p => (Option.map Prod.fst p)) h1
        rw [hupd, List.getElem?_set_eq (by omega), hget'', hids]
        exact congrArg some hdata''.symm
    · rw [hupd, List.getElem?_set_ne (fun hc => hjj hc.symm)]
      rcases hC j hjlen with h | ⟨g, hg, hgidx⟩
      · exact Or.inl h
      · rcases List.mem_cons.mp hg with rfl | hgmem
        · rw [hj0L] at hgidx
          exact absurd (Option.some_inj.mp hgidx).symm hjj
        · exact Or.inr ⟨g, hgmem, hgidx⟩

/-- The E*TRADE position loop leaves the accounts table untouched. -/
theorem ApiService.accounts_etradeProcessPositions (aid : Nat) (s : Store)
    (ps : List ApiService.ETradePosition) :
    (ApiService.etradeProcessPositions aid s ps).accounts = s.accounts := by
  induction ps generalizing s with
  | nil => rfl
  | cons p ps ih =>
    simp only [ApiService.etradeProcessPositions, List.foldl_cons] at *
    rw [ih]
    unfold ApiService.etradeProcessPosition
    cases p.product <;> cases p.quick <|> p.complete <;> simp

/-- Every key the batch writes is present in the table the reconcile fold
leaves behind. -/
theorem fIdx_present_after_fold (l : List InsertHolding) (x : Nat × List Holding)
    (hd : InsertHolding) (hmem : hd ∈ l) :
    ∃ j, fIdx hd (upsertFoldRows x l).2 = some j := by
  obtain ⟨hd₁, hlast, hacc, hsym⟩ := lastOcc_exists hmem
  obtain ⟨j, h, hidx, -, -⟩ := upsertFoldRows_lastWrite l x hd₁ hlast
  exact ⟨j, by rw [← fIdx_key_congr hacc hsym]; exact hidx⟩

/-- C7: the E*TRADE sync is idempotent with respect to an unchanged
provider response. If a first sync of a well-formed store succeeds, a
second sync against the same provider run succeeds, produces an identical
holdings table (the second run only updates rows in place, matched by
symbol, creating no duplicates), and leaves the account balance identical. -/
theorem etrade_sync_idempotent (env : ApiService.ETradeEnv) (s0 : Store)
    (aid now now' : Nat) (hwf : WF s0)
    (h1 : (ApiService.syncETradeAccount env s0 aid now).1 = Except.ok ()) :
    (ApiService.syncETradeAccount env
        (ApiService.syncETradeAccount env s0 aid now).2 aid now').1 = Except.ok () ∧
    (ApiService.syncETradeAccount env
        (ApiService.syncETradeAccount env s0 aid now).2 aid now').2.holdings
      = (ApiService.syncETradeAccount env s0 aid now).2.holdings ∧
    (Storage.getAccount (ApiService.syncETradeAccount env
        (ApiService.syncETradeAccount env s0 aid now).2 aid now').2 aid).map
          (fun a => a.balance)
      = (Storage.getAccount
          (ApiService.syncETradeAccount env s0 aid now).2 aid).map (fun a => a.balance) := by
  cases hacct : Storage.getAccount s0 aid with
  | none => simp [ApiService.syncETradeAccount, hacct] at h1
  | some a =>
  cases hat : a.accessToken with
  | none => simp [ApiService.syncETradeAccount, hacct, hat] at h1
  | some t =>
  cases hart : a.refreshToken with
  | none => simp [ApiService.syncETradeAccount, hacct, hat, hart] at h1
  | some r =>
  by_cases hcf : env.configured
  case neg => simp [ApiService.syncETradeAccount, hacct, hat, hart, hcf] at h1
  case pos =>
  cases hA : env.accountsResult with
  | error e =>
    simp [ApiService.syncETradeAccount, ApiService.syncETradeBody, hacct, hat, hart, hcf, hA] at h1
  | ok accts =>
  cases accts with
  | nil =>
    simp [ApiService.syncETradeAccount, ApiService.syncETradeBody, hacct, hat, hart, hcf, hA] at h1
  | cons ad rest =>
  cases hBal : env.balancesResult with
  | error e =>
    simp [ApiService.syncETradeAccount, ApiService.syncETradeBody, hacct, hat, hart, hcf, hA, hBal] at h1
  | ok tv =>
  cases hPf : env.portfolioResult with
  | error e =>
    simp [ApiService.syncETradeAccount, ApiService.syncETradeBody, hacct, hat, hart, hcf, hA,
      hBal, hPf] at h1
  | ok ps =>
  -- run one, fully reduced
  have hrun1 : ApiService.syncETradeAccount env s0 aid now
      = (Except.ok (), Storage.createActivity
          (ApiService.etradeProcessPositions aid
            (Storage.updateAccount s0 aid
              { balance := some (tv.getD 0),
                accountIdKey := some (some ad.accountIdKey),
                isConnected := some true } now) ps)
          { accountId := aid, type := "sync",
            description := "E*TRADE account successfully synchronized",
            amount := none, symbol := none } now) := by
    simp [ApiService.syncETradeAccount, ApiService.syncETradeBody, hacct, hat, hart, hcf, hA,
      hBal, hPf]
  set u : AccountUpdate :=
    { balance := some (tv.getD 0),
      accountIdKey := some (some ad.accountIdKey),
      isConnected := some true } with hudef
  set sA := Storage.updateAccount s0 aid u now with hsA
  set hds := etradeHds aid ps with hhds
  have hwfA : WF sA := hwf
  obtain ⟨hH1, hC1, hWF1, hAcc1, hAct1⟩ := foldUpsert_spec hds sA hwfA
  have hproc1 : ApiService.etradeProcessPositions aid sA ps = foldUpsert sA hds := by
    rw [hhds]
    exact etradeProcessPositions_eq_foldUpsert aid sA ps
  set s1 := Storage.createActivity (ApiService.etradeProcessPositions aid sA ps)
      { accountId := aid, type := "sync",
        description := "E*TRADE account successfully synchronized",
        amount := none, symbol := none } now with hs1
  have hs1run : (ApiService.syncETradeAccount env s0 aid now).2 = s1 := by
    rw [hrun1]
  -- facts about the store after run one
  have hrows1 : s1.holdings = (upsertFoldRows (s0.currentHoldingId, s0.holdings) hds).2 := by
    rw [hs1, Storage.holdings_createActivity, hproc1]
    exact hH1
  have hcid1 : s1.currentHoldingId = (upsertFoldRows (s0.currentHoldingId, s0.holdings) hds).1 := by
    rw [hs1, Storage.chid_createActivity, hproc1]
    exact hC1
  have hwfs1 : WF s1 := by
    unfold WF
    rw [hs1, Storage.chid_createActivity, Storage.holdings_createActivity, hproc1]
    exact hWF1
  have hacc1 : s1.accounts = sA.accounts := by
    rw [hs1, Storage.accounts_createActivity, hproc1]
    exact hAcc1
  have hga1 : Storage.getAccount s1 aid = some (Storage.applyAccountUpdate a u now) := by
    unfold Storage.getAccount
    rw [hacc1]
    rw [show sA.accounts.find? (fun x => x.id == aid)
        = Storage.getAccount sA aid from rfl]
    rw [hsA, Storage.getAccount_updateAccount, hacct, Option.map_some']
  have ha1t : (Storage.applyAccountUpdate a u now).accessToken = some t := by
    rw [show (Storage.applyAccountUpdate a u now).accessToken = a.accessToken from rfl, hat]
  have ha1r : (Storage.applyAccountUpdate a u now).refreshToken = some r := by
    rw [show (Storage.applyAccountUpdate a u now).refreshToken = a.refreshToken from rfl, hart]
  -- run two, fully reduced
  have hrun2 : ApiService.syncETradeAccount env s1 aid now'
      = (Except.ok (), Storage.createActivity
          (ApiService.etradeProcessPositions aid
            (Storage.updateAccount s1 aid u now') ps)
          { accountId := aid, type := "sync",
            description := "E*TRADE account successfully synchronized",
            amount := none, symbol := none } now') := by
    simp [ApiService.syncETradeAccount, ApiService.syncETradeBody, hga1, ha1t, ha1r, hcf, hA,
      hBal, hPf, hudef]
  set sA' := Storage.updateAccount s1 aid u now' with hsA'
  have hwfA' : WF sA' := hwfs1
  obtain ⟨hH2, hC2, hWF2, hAcc2, hAct2⟩ := foldUpsert_spec hds sA' hwfA'
  have hproc2 : ApiService.etradeProcessPositions aid sA' ps = foldUpsert sA' hds := by
    rw [hhds]
    exact etradeProcessPositions_eq_foldUpsert aid sA' ps
  -- the second pass over the same batch is a fixpoint on the rows
  have hrows1' : sA'.holdings = (upsertFoldRows (s0.currentHoldingId, s0.holdings) hds).2 := by
    rw [hsA', Storage.holdings_updateAccount]
    exact hrows1
  have hpres : ∀ hd ∈ hds, ∃ j,
      fIdx hd (upsertFoldRows (s0.currentHoldingId, s0.holdings) hds).2 = some j :=
    fun hd hmem => fIdx_present_after_fold hds (s0.currentHoldingId, s0.holdings) hd hmem
  have hfix : (upsertFoldRows (sA'.currentHoldingId, sA'.holdings) hds).2
      = (upsertFoldRows (s0.currentHoldingId, s0.holdings) hds).2 := by
    have hpair : (sA'.currentHoldingId, sA'.holdings)
        = (sA'.currentHoldingId, (upsertFoldRows (s0.currentHoldingId, s0.holdings) hds).2) := by
      rw [hrows1']
    rw [hpair]
    rw [upsertFoldRows_eq_updFold hds sA'.currentHoldingId rfl hpres]
    have hfixrows := updFold_fixpoint hds
      (upsertFoldRows (s0.currentHoldingId, s0.holdings) hds).2
      (upsertFoldRows (s0.currentHoldingId, s0.holdings) hds).2 rfl
      (fun hd₁ hlast => upsertFoldRows_lastWrite hds (s0.currentHoldingId, s0.holdings) hd₁ hlast)
      (fun j hj => Or.inl rfl)
    simpa using hfixrows
  refine ⟨?_, ?_, ?_⟩
  · rw [hs1run, hrun2]
  · rw [hs1run, hrun2]
    simp only [Storage.holdings_createActivity]
    rw [hproc2, hH2, hfix, ← hrows1]
  · rw [hs1run, hrun2]
    have hgacc2 : Storage.getAccount (Storage.createActivity
        (ApiService.etradeProcessPositions aid sA' ps)
        { accountId := aid, type := "sync",
          description := "E*TRADE account successfully synchronized",
          amount := none, symbol := none } now') aid
        = Storage.getAccount sA' aid := by
      unfold Storage.getAccount
      rw [Storage.accounts_createActivity, hproc2]
      rw [hAcc2]
    rw [hgacc2, hsA', Storage.getAccount_updateAccount, hga1, Option.map_some']
    rfl

/-- Witness for C7: a concrete successful sync run twice. -/
theorem etrade_sync_idempotent_witness :
    (ApiService.syncETradeAccount demoETradeEnv
        (ApiService.syncETradeAccount demoETradeEnv demoStore1 1 5).2 1 7).1 = Except.ok () ∧
    (ApiService.syncETradeAccount demoETradeEnv
        (ApiService.syncETradeAccount demoETradeEnv demoStore1 1 5).2 1 7).2.holdings
      = (ApiService.syncETradeAccount demoETradeEnv demoStore1 1 5).2.holdings ∧
    (Storage.getAccount (ApiService.syncETradeAccount demoETradeEnv
        (ApiService.syncETradeAccount demoETradeEnv demoStore1 1 5).2 1 7).2 1).map
          (fun a => a.balance)
      = (Storage.getAccount
          (ApiService.syncETradeAccount demoETradeEnv demoStore1 1 5).2 1).map
            (fun a => a.balance) :=
  etrade_sync_idempotent demoETradeEnv demoStore1 1 5 7 ⟨by decide, by decide⟩ rfl
